import Mathlib

/-!
# FORGE dispatch core: scoring and routing engines

A shallow embedding of the scoring engine (`backend/app/services/assignment_service.py`)
and the routing engine (`backend/app/services/optimization_service.py`), together with
theorems about the claims of the specification.

Modelling choices:
* Python floats are modelled as exact rationals (`ℚ`); `round(x, n)` is modelled by
  `roundTo n` (integer rounding of `x * 10^n`).  Python rounds half-to-even while
  Mathlib's `round` rounds half-up; the two differ only at exact ties, which no
  statement below depends on.
* The haversine great-circle formula is transcendental, so the geo-distance primitive
  is abstracted as a parameter `hav : Dist` of every engine operation; the real-valued
  formula itself is transcribed as `haversineReal`, and `haversineReal_nonneg` justifies
  the nonnegativity hypotheses used for the distance parameter.
* Python dictionaries for route stops may lack keys, so job records carry `Option`
  fields and dictionary access is a fallible operation in the `Except String` monad,
  mirroring `KeyError` propagation.
-/

namespace Forge

/-- The type of the geo-distance primitive: latitude and longitude of two points,
in degrees, to a distance in kilometres. -/
abbrev Dist : Type := ℚ → ℚ → ℚ → ℚ → ℚ

/-- The haversine great-circle distance of the source (`_haversine` and
`_haversine_distance`): Earth radius 6371 km, coordinates converted from degrees
to radians. -/
noncomputable def haversineReal (lat1 lng1 lat2 lng2 : ℝ) : ℝ :=
  6371 * (2 * Real.arcsin (Real.sqrt
    (Real.sin ((lat2 * Real.pi / 180 - lat1 * Real.pi / 180) / 2) ^ 2 +
     Real.cos (lat1 * Real.pi / 180) * Real.cos (lat2 * Real.pi / 180) *
       Real.sin ((lng2 * Real.pi / 180 - lng1 * Real.pi / 180) / 2) ^ 2)))

/-- Model of Python `round(x, n)`: round `x * 10^n` to an integer and scale back. -/
def roundTo (n : ℕ) (x : ℚ) : ℚ := (round (x * 10 ^ n) : ℤ) / 10 ^ n

namespace AssignmentService

/-- Snapshot of a `Worker` row, with the fields read by the scoring engine.
Optional coordinates model SQL NULL positions. -/
structure Worker where
  id : Int
  name : String
  availability_status : String
  active : Bool
  skills : List String
  skill_level : String
  current_lat : Option ℚ
  current_lng : Option ℚ
  performance_rating : ℚ
  first_time_fix_rate : ℚ
  max_tickets_per_day : Int
deriving DecidableEq

/-- Snapshot of a `Ticket` row, with the fields read by the scoring engine. -/
structure Ticket where
  skills_required : List String
  location_lat : Option ℚ
  location_lng : Option ℚ
deriving DecidableEq

/-- The `WorkerScore` dataclass.  The matching/missing skill collections are Python
sets listed in unspecified order, so they are modelled as finite sets. -/
structure WorkerScore where
  worker_id : Int
  worker_name : String
  skill_match_score : ℚ
  proximity_score : ℚ
  availability_score : ℚ
  performance_score : ℚ
  overall_score : ℚ
  travel_distance_km : ℚ
  travel_time_minutes : ℚ
  matching_skills : Finset String
  missing_skills : Finset String
deriving DecidableEq

def WEIGHT_SKILL_MATCH : ℚ := 0.40

def WEIGHT_PROXIMITY : ℚ := 0.30

def WEIGHT_AVAILABILITY : ℚ := 0.20

def WEIGHT_PERFORMANCE : ℚ := 0.10

def MAX_DISTANCE_KM : ℚ := 100

def AVG_SPEED_KMH : ℚ := 40

/-- The `level_bonus` dictionary lookup with default 0. -/
def level_bonus (level : String) : ℚ :=
  if level = "junior" then 0
  else if level = "intermediate" then 0.05
  else if level = "senior" then 0.10
  else if level = "expert" then 0.15
  else 0

/-- `_haversine_distance`: `none` when any coordinate is missing, otherwise the
great-circle distance computed by the primitive. -/
def haversine_distance (hav : Dist) (lat1 lng1 lat2 lng2 : Option ℚ) : Option ℚ :=
  match lat1, lng1, lat2, lng2 with
  | some a, some b, some c, some d => some (hav a b c d)
  | _, _, _, _ => none

/-- The skill-match block of `_score_worker`: the base score together with the
matching and missing skill sets, before the level bonus. -/
def skill_data (ticket : Ticket) (worker : Worker) : ℚ × Finset String × Finset String :=
  let required_skills := ticket.skills_required.toFinset
  let worker_skills := worker.skills.toFinset
  if required_skills = ∅ then
    (1, worker_skills, (∅ : Finset String))
  else
    (((required_skills ∩ worker_skills).card : ℚ) / (required_skills.card : ℚ),
     required_skills ∩ worker_skills,
     required_skills \ worker_skills)

/-- The final skill score: base score plus level bonus, clamped to at most 1. -/
def skill_score (ticket : Ticket) (worker : Worker) : ℚ :=
  min 1 ((skill_data ticket worker).1 + level_bonus worker.skill_level)

/-- The proximity block of `_score_worker`: `none` when the worker is farther than
`MAX_DISTANCE_KM` (hard filter), otherwise the pair of proximity score and effective
travel distance. -/
def proximity_data (hav : Dist) (ticket : Ticket) (worker : Worker) : Option (ℚ × ℚ) :=
  match haversine_distance hav ticket.location_lat ticket.location_lng
      worker.current_lat worker.current_lng with
  | none => some (0.5, 20.0)
  | some d =>
    if MAX_DISTANCE_KM < d then none
    else some (max 0 (1 - d / MAX_DISTANCE_KM), d)

/-- The availability block of `_score_worker` (always 1 in the current code). -/
def availability_score (worker : Worker) : ℚ :=
  if 0 < worker.max_tickets_per_day then 1.0 else 1.0

/-- The performance block of `_score_worker`. -/
def performance_score (worker : Worker) : ℚ :=
  worker.performance_rating / 5.0 * 0.6 + worker.first_time_fix_rate * 0.4

/-- The weighted overall score. -/
def overall_score (skill prox avail perf : ℚ) : ℚ :=
  WEIGHT_SKILL_MATCH * skill + WEIGHT_PROXIMITY * prox +
    WEIGHT_AVAILABILITY * avail + WEIGHT_PERFORMANCE * perf

/-- `_score_worker`: `none` when the worker is beyond the hard distance filter,
otherwise the rounded `WorkerScore`. -/
def score_worker (hav : Dist) (ticket : Ticket) (worker : Worker) : Option WorkerScore :=
  match proximity_data hav ticket worker with
  | none => none
  | some (prox, travel_distance) =>
    let s := skill_score ticket worker
    let travel_time := travel_distance / AVG_SPEED_KMH * 60
    let avail := availability_score worker
    let perf := performance_score worker
    let overall := overall_score s prox avail perf
    some
      { worker_id := worker.id
        worker_name := worker.name
        skill_match_score := roundTo 3 s
        proximity_score := roundTo 3 prox
        availability_score := roundTo 3 avail
        performance_score := roundTo 3 perf
        overall_score := roundTo 3 overall
        travel_distance_km := roundTo 2 travel_distance
        travel_time_minutes := roundTo 1 travel_time
        matching_skills := (skill_data ticket worker).2.1
        missing_skills := (skill_data ticket worker).2.2 }

/-- The filter-and-score loop of `rank_workers`, before sorting. -/
def scored_workers (hav : Dist) (ticket : Ticket) (workers : List Worker) :
    List WorkerScore :=
  (workers.filter fun w => w.availability_status == "available" && w.active).filterMap
    (score_worker hav ticket)

/-- The descending comparison used by the final stable sort of `rank_workers`. -/
def score_ge (a b : WorkerScore) : Bool := decide (b.overall_score ≤ a.overall_score)

/-- `rank_workers`: score the eligible workers, then stable-sort by descending
overall score (Python `list.sort` is a stable sort). -/
def rank_workers (hav : Dist) (ticket : Ticket) (workers : List Worker) :
    List WorkerScore :=
  (scored_workers hav ticket workers).mergeSort score_ge

/-- Concrete inputs used by the witnesses below: a distance primitive that returns
a constant (0 or 150 km), a worker and two tickets. -/
def hav0 : Dist := fun _ _ _ _ => 0

def hav150 : Dist := fun _ _ _ _ => 150

def w0 : Worker :=
  { id := 1
    name := "A"
    availability_status := "available"
    active := true
    skills := ["Plumbing"]
    skill_level := "junior"
    current_lat := some 0
    current_lng := some 0
    performance_rating := 5
    first_time_fix_rate := 1
    max_tickets_per_day := 5 }

def t0 : Ticket :=
  { skills_required := ["Plumbing"]
    location_lat := some 0
    location_lng := some 0 }

def tN : Ticket :=
  { skills_required := []
    location_lat := none
    location_lng := none }

/-- The score that `score_worker` produces on the concrete fixture inputs. -/
def s0 : WorkerScore :=
  { worker_id := w0.id
    worker_name := w0.name
    skill_match_score := roundTo 3 (skill_score t0 w0)
    proximity_score := roundTo 3 1
    availability_score := roundTo 3 (availability_score w0)
    performance_score := roundTo 3 (performance_score w0)
    overall_score := roundTo 3 (overall_score (skill_score t0 w0) 1
      (availability_score w0) (performance_score w0))
    travel_distance_km := roundTo 2 0
    travel_time_minutes := roundTo 1 (0 / AVG_SPEED_KMH * 60)
    matching_skills := (skill_data t0 w0).2.1
    missing_skills := (skill_data t0 w0).2.2 }

end AssignmentService

namespace OptimizationService

/-- A job dictionary passed to `optimize_route`.  Every field is optional because a
Python dict may lack any key; reading a required key is a fallible operation. -/
structure Job where
  location_lat : Option ℚ
  location_lng : Option ℚ
  location_address : Option String
  ticket_id : Option Int
deriving DecidableEq

/-- The `RouteStop` dataclass. -/
structure RouteStop where
  location_lat : ℚ
  location_lng : ℚ
  location_address : Option String
  ticket_id : Option Int
  order : ℕ
  distance_from_previous_km : ℚ
  estimated_arrival_minutes : ℚ
deriving DecidableEq

/-- The `OptimizedRoute` dataclass. -/
structure OptimizedRoute where
  stops : List RouteStop
  total_distance_km : ℚ
  total_time_minutes : ℚ
  worker_id : Option Int := none
deriving DecidableEq

def AVG_SPEED_KMH : ℚ := 40.0

/-- `_travel_minutes`: distance to travel time, 0 if the configured speed is not
positive. -/
def travel_minutes (distance_km : ℚ) : ℚ :=
  if AVG_SPEED_KMH ≤ 0 then 0 else distance_km / AVG_SPEED_KMH * 60

def defaultJob : Job :=
  { location_lat := none, location_lng := none, location_address := none,
    ticket_id := none }

/-- Indexing `job_locations[idx]`; every index used below stays in bounds, so the
default is never reached. -/
def jobAt (jobs : List Job) (i : ℕ) : Job := jobs.getD i defaultJob

/-- Dictionary access `job["location_lat"]`, raising `KeyError` when absent. -/
def getLat (j : Job) : Except String ℚ :=
  match j.location_lat with
  | some v => .ok v
  | none => .error "KeyError: location_lat"

/-- Dictionary access `job["location_lng"]`, raising `KeyError` when absent. -/
def getLng (j : Job) : Except String ℚ :=
  match j.location_lng with
  | some v => .ok v
  | none => .error "KeyError: location_lng"

/-- The latitude of a job when present (defaulted form, used by the pure
reformulation below under the all-positions-present hypothesis). -/
def latD (j : Job) : ℚ := j.location_lat.getD 0

def lngD (j : Job) : ℚ := j.location_lng.getD 0

/-- Position of the job at index `i`. -/
def posD (jobs : List Job) (i : ℕ) : ℚ × ℚ := (latD (jobAt jobs i), lngD (jobAt jobs i))

/-- Distance from the current position to the job at index `i`. -/
def jdist (hav : Dist) (jobs : List Job) (cur : ℚ × ℚ) (i : ℕ) : ℚ :=
  hav cur.1 cur.2 (latD (jobAt jobs i)) (lngD (jobAt jobs i))

/-- The inner scan of the nearest-neighbor loop: walk the unvisited indices keeping
the first index of strictly minimal distance (`none` plays the role of the initial
infinite distance). -/
def scanNearest (hav : Dist) (jobs : List Job) (cur : ℚ × ℚ) :
    List ℕ → Option (ℕ × ℚ) → Except String (Option (ℕ × ℚ))
  | [], best => .ok best
  | i :: rest, best => do
    let lat ← getLat (jobAt jobs i)
    let lng ← getLng (jobAt jobs i)
    let d := hav cur.1 cur.2 lat lng
    let best2 : Option (ℕ × ℚ) :=
      match best with
      | none => some (i, d)
      | some (bi, bd) => if d < bd then some (i, d) else some (bi, bd)
    scanNearest hav jobs cur rest best2

/-- The `while unvisited` loop of `optimize_route`, with explicit fuel.  The loop
removes the selected index each iteration, so fuel equal to the initial number of
unvisited indices (as passed by `optimize_route`) is always sufficient. -/
def nnRoute (hav : Dist) (jobs : List Job) :
    ℕ → (ℚ × ℚ) → List ℕ → Except String (List ℕ)
  | 0, _, _ => .ok []
  | fuel + 1, cur, unvisited =>
    if unvisited.isEmpty then .ok []
    else do
      let best ← scanNearest hav jobs cur unvisited none
      match best with
      | none => .error "ValueError: list.remove(x): x not in list"
      | some (i, _) => do
        let lat ← getLat (jobAt jobs i)
        let lng ← getLng (jobAt jobs i)
        let rest ← nnRoute hav jobs fuel (lat, lng) (unvisited.erase i)
        .ok (i :: rest)

/-- The output-construction loop of `optimize_route`: walk the chosen order,
accumulating total distance and cumulative time, producing one `RouteStop` per
visit with 1-based order. -/
def buildStops (hav : Dist) (jobs : List Job) :
    List ℕ → (ℚ × ℚ) → ℕ → ℚ → ℚ → Except String (List RouteStop × ℚ × ℚ)
  | [], _, _, total_distance, total_time => .ok ([], total_distance, total_time)
  | i :: rest, prev, k, total_distance, total_time => do
    let lat ← getLat (jobAt jobs i)
    let lng ← getLng (jobAt jobs i)
    let dist := hav prev.1 prev.2 lat lng
    let travel_min := travel_minutes dist
    let out ← buildStops hav jobs rest (lat, lng) (k + 1) (total_distance + dist)
      (total_time + travel_min)
    .ok ({ location_lat := lat
           location_lng := lng
           location_address := (jobAt jobs i).location_address
           ticket_id := (jobAt jobs i).ticket_id
           order := k + 1
           distance_from_previous_km := roundTo 2 dist
           estimated_arrival_minutes := roundTo 1 (total_time + travel_min) }
        :: out.1, out.2)

/-- `optimize_route`: nearest-neighbor ordering followed by output construction. -/
def optimize_route (hav : Dist) (worker_location : ℚ × ℚ)
    (job_locations : List Job) : Except String OptimizedRoute :=
  if job_locations.isEmpty then
    .ok { stops := [], total_distance_km := 0.0, total_time_minutes := 0.0 }
  else do
    let ordered ← nnRoute hav job_locations job_locations.length worker_location
      (List.range job_locations.length)
    let out ← buildStops hav job_locations ordered worker_location 0 0 0
    .ok { stops := out.1
          total_distance_km := roundTo 2 out.2.1
          total_time_minutes := roundTo 1 out.2.2 }

/-- A worker dictionary passed to `optimize_fleet_routes`. -/
structure FWorker where
  id : Int
  current_lat : ℚ
  current_lng : ℚ
deriving DecidableEq

/-- A ticket dictionary passed to `optimize_fleet_routes`. -/
structure FTicket where
  ticket_id : Option Int
  location_lat : ℚ
  location_lng : ℚ
  location_address : Option String
deriving DecidableEq

/-- The job dictionary handed to `optimize_route` for an assigned ticket. -/
def FTicket.toJob (t : FTicket) : Job :=
  { location_lat := some t.location_lat
    location_lng := some t.location_lng
    location_address := t.location_address
    ticket_id := t.ticket_id }

/-- The inner scan of the clustering step: the id of the first worker of strictly
minimal distance to the ticket. -/
def nearestWorkerAux (hav : Dist) (t : FTicket) :
    List FWorker → Option (Int × ℚ) → Option (Int × ℚ)
  | [], best => best
  | w :: rest, best =>
    let d := hav w.current_lat w.current_lng t.location_lat t.location_lng
    let best2 : Option (Int × ℚ) :=
      match best with
      | none => some (w.id, d)
      | some (bid, bd) => if d < bd then some (w.id, d) else some (bid, bd)
    nearestWorkerAux hav t rest best2

def nearestWorker (hav : Dist) (workers : List FWorker) (t : FTicket) : Option Int :=
  (nearestWorkerAux hav t workers none).map Prod.fst

/-- The per-worker job list built by the clustering dictionary: the tickets, in
input order, whose nearest worker has this id. -/
def cluster (hav : Dist) (workers : List FWorker) (tickets : List FTicket)
    (wid : Int) : List FTicket :=
  tickets.filter fun t => nearestWorker hav workers t == some wid

/-- The per-worker loop of `optimize_fleet_routes`: skip workers with no assigned
jobs, otherwise optimize their route and tag it with the worker id. -/
def fleetLoop (hav : Dist) (workers : List FWorker) (tickets : List FTicket) :
    List FWorker → Except String (List OptimizedRoute)
  | [] => .ok []
  | w :: rest =>
    let jobs := cluster hav workers tickets w.id
    if jobs.isEmpty then fleetLoop hav workers tickets rest
    else do
      let route ← optimize_route hav (w.current_lat, w.current_lng)
        (jobs.map FTicket.toJob)
      let routes ← fleetLoop hav workers tickets rest
      .ok ({ route with worker_id := some w.id } :: routes)

/-- `optimize_fleet_routes`: nearest-worker clustering, then one optimized route
per worker that received at least one ticket. -/
def optimize_fleet_routes (hav : Dist) (workers : List FWorker)
    (tickets : List FTicket) : Except String (List OptimizedRoute) :=
  if workers.isEmpty || tickets.isEmpty then .ok []
  else fleetLoop hav workers tickets workers

/-- Pure version of `scanNearest`, meaningful when all scanned jobs have both
coordinates present. -/
def scanPure (hav : Dist) (jobs : List Job) (cur : ℚ × ℚ) :
    List ℕ → Option (ℕ × ℚ) → Option (ℕ × ℚ)
  | [], best => best
  | i :: rest, best =>
    let d := jdist hav jobs cur i
    let best2 : Option (ℕ × ℚ) :=
      match best with
      | none => some (i, d)
      | some (bi, bd) => if d < bd then some (i, d) else some (bi, bd)
    scanPure hav jobs cur rest best2

/-- Pure version of `nnRoute`. -/
def nnPure (hav : Dist) (jobs : List Job) :
    ℕ → (ℚ × ℚ) → List ℕ → List ℕ
  | 0, _, _ => []
  | fuel + 1, cur, unvisited =>
    if unvisited.isEmpty then []
    else
      match scanPure hav jobs cur unvisited none with
      | none => []
      | some (i, _) => i :: nnPure hav jobs fuel (posD jobs i) (unvisited.erase i)

/-- Pure version of `buildStops`. -/
def buildPure (hav : Dist) (jobs : List Job) :
    List ℕ → (ℚ × ℚ) → ℕ → ℚ → ℚ → List RouteStop × ℚ × ℚ
  | [], _, _, total_distance, total_time => ([], total_distance, total_time)
  | i :: rest, prev, k, total_distance, total_time =>
    let d := jdist hav jobs prev i
    let travel_min := travel_minutes d
    let out := buildPure hav jobs rest (posD jobs i) (k + 1) (total_distance + d)
      (total_time + travel_min)
    ({ location_lat := latD (jobAt jobs i)
       location_lng := lngD (jobAt jobs i)
       location_address := (jobAt jobs i).location_address
       ticket_id := (jobAt jobs i).ticket_id
       order := k + 1
       distance_from_previous_km := roundTo 2 d
       estimated_arrival_minutes := roundTo 1 (total_time + travel_min) }
      :: out.1, out.2)

/-- All jobs of the list carry both coordinates (the caller contract of
`optimize_route`). -/
def AllPresent (jobs : List Job) : Prop :=
  ∀ j ∈ jobs, j.location_lat.isSome = true ∧ j.location_lng.isSome = true

instance (jobs : List Job) : Decidable (AllPresent jobs) := by
  unfold AllPresent
  infer_instance

/-- The per-leg distances along a visiting order, starting from the worker
location: leg `k` connects the position after `k` visits to the `k`-th visited
stop. -/
def legDistances (hav : Dist) (jobs : List Job) :
    (ℚ × ℚ) → List ℕ → List ℚ
  | _, [] => []
  | prev, i :: rest => jdist hav jobs prev i :: legDistances hav jobs (posD jobs i) rest

/-- Specification predicate for claim C2, transcribing the claim: at each step the
chosen index is an unvisited stop of minimal distance from the current position,
any unvisited stop of smaller index is strictly farther (ties break to the earliest
index), and the current position then advances to the chosen stop. -/
inductive GreedyOrder (hav : Dist) (jobs : List Job) :
    (ℚ × ℚ) → List ℕ → List ℕ → Prop
  | nil (cur : ℚ × ℚ) : GreedyOrder hav jobs cur [] []
  | cons (cur : ℚ × ℚ) (unvisited : List ℕ) (i : ℕ) (rest : List ℕ)
      (mem : i ∈ unvisited)
      (min : ∀ j ∈ unvisited, jdist hav jobs cur i ≤ jdist hav jobs cur j)
      (tie : ∀ j ∈ unvisited, j < i → jdist hav jobs cur i < jdist hav jobs cur j)
      (next : GreedyOrder hav jobs (posD jobs i) (unvisited.erase i) rest) :
      GreedyOrder hav jobs cur unvisited (i :: rest)

/-- Concrete fixtures for the routing witnesses. -/
def job1 : Job :=
  { location_lat := some 1, location_lng := some 0, location_address := none,
    ticket_id := some 11 }

def job2 : Job :=
  { location_lat := some 2, location_lng := some 0, location_address := none,
    ticket_id := some 12 }

def jobMissing : Job :=
  { location_lat := none, location_lng := some 0, location_address := none,
    ticket_id := some 13 }

/-- A concrete distance function on rational coordinates: absolute coordinate
differences (a metric, unlike the constant functions). -/
def havAbs : Dist := fun lat1 lng1 lat2 lng2 => |lat2 - lat1| + |lng2 - lng1|

/-- The constant-zero distance function; it agrees with the haversine formula on
inputs where all points coincide. -/
def hav00 : Dist := fun _ _ _ _ => 0

def fw1 : FWorker := { id := 1, current_lat := 0, current_lng := 0 }

def fw1b : FWorker := { id := 1, current_lat := 0, current_lng := 0 }

def fw2 : FWorker := { id := 2, current_lat := 10, current_lng := 0 }

def ft1 : FTicket :=
  { ticket_id := some 7, location_lat := 1, location_lng := 0,
    location_address := none }

/-- A ticket located exactly at the duplicate-id workers, used by the
counterexample (all distances are 0 there, so rounding is trivial). -/
def ftZ : FTicket :=
  { ticket_id := some 7, location_lat := 0, location_lng := 0,
    location_address := none }

/-- The payload data of a route stop (everything except the order/distance/time
fields computed by the optimizer). -/
def stopData (s : RouteStop) : ℚ × ℚ × Option String × Option Int :=
  (s.location_lat, s.location_lng, s.location_address, s.ticket_id)

/-- The payload data of a job. -/
def jobData (j : Job) : ℚ × ℚ × Option String × Option Int :=
  (latD j, lngD j, j.location_address, j.ticket_id)

/-- The payload data of a fleet ticket. -/
def ticketData (t : FTicket) : ℚ × ℚ × Option String × Option Int :=
  (t.location_lat, t.location_lng, t.location_address, t.ticket_id)

/-- The visiting order chosen by `optimize_route` (pure reformulation). -/
def visitOrder (hav : Dist) (start : ℚ × ℚ) (jobs : List Job) : List ℕ :=
  nnPure hav jobs jobs.length start (List.range jobs.length)

/-- The route returned by `optimize_route` on well-formed nonempty input (pure
reformulation). -/
def optimize_route_pure (hav : Dist) (start : ℚ × ℚ) (jobs : List Job) :
    OptimizedRoute :=
  { stops := (buildPure hav jobs (visitOrder hav start jobs) start 0 0 0).1
    total_distance_km :=
      roundTo 2 (buildPure hav jobs (visitOrder hav start jobs) start 0 0 0).2.1
    total_time_minutes :=
      roundTo 1 (buildPure hav jobs (visitOrder hav start jobs) start 0 0 0).2.2 }

/-- The list returned by `optimize_fleet_routes` on well-formed input (pure
reformulation): one tagged route per worker, in input order, for workers with a
nonempty cluster. -/
def fleet_pure (hav : Dist) (workers : List FWorker) (tickets : List FTicket) :
    List OptimizedRoute :=
  (workers.filter fun w => !(cluster hav workers tickets w.id).isEmpty).map fun w =>
    { optimize_route_pure hav (w.current_lat, w.current_lng)
        ((cluster hav workers tickets w.id).map FTicket.toJob) with
      worker_id := some w.id }

/-- The distance from a worker to a ticket used by the clustering scan. -/
def wdist (hav : Dist) (t : FTicket) (v : FWorker) : ℚ :=
  hav v.current_lat v.current_lng t.location_lat t.location_lng

/-- Specification predicate for the clustering step of claim C6, transcribing the
claim: the assigned id belongs to a worker at minimal distance from the ticket,
and every earlier worker in input order is strictly farther (ties break to the
first-encountered worker). -/
def NearestWorkerSpec (hav : Dist) (workers : List FWorker) (t : FTicket)
    (wid : Int) : Prop :=
  ∃ W₁ W₂ w, workers = W₁ ++ w :: W₂ ∧ FWorker.id w = wid ∧
    (∀ v ∈ workers, wdist hav t w ≤ wdist hav t v) ∧
    ∀ v ∈ W₁, wdist hav t w < wdist hav t v

/-- The route that `optimize_fleet_routes` produces twice in the duplicate-id
counterexample. -/
def routeDup : OptimizedRoute :=
  { optimize_route_pure hav00 (0, 0) [FTicket.toJob ftZ] with
    worker_id := some 1 }

end OptimizationService

/-- The haversine distance is nonnegative, which justifies assuming nonnegativity
of the abstract distance parameter in the theorems below. -/
lemma haversineReal_nonneg (lat1 lng1 lat2 lng2 : ℝ) :
    0 ≤ haversineReal lat1 lng1 lat2 lng2 := by
  have h1 : (0 : ℝ) ≤ Real.arcsin (Real.sqrt
      (Real.sin ((lat2 * Real.pi / 180 - lat1 * Real.pi / 180) / 2) ^ 2 +
       Real.cos (lat1 * Real.pi / 180) * Real.cos (lat2 * Real.pi / 180) *
         Real.sin ((lng2 * Real.pi / 180 - lng1 * Real.pi / 180) / 2) ^ 2)) :=
    Real.arcsin_nonneg.mpr (Real.sqrt_nonneg _)
  unfold haversineReal
  linarith

lemma roundTo_mono {n : ℕ} {x y : ℚ} (h : x ≤ y) : roundTo n x ≤ roundTo n y := by
  unfold roundTo
  have hpow : (0 : ℚ) < 10 ^ n := by positivity
  have hr : round (x * 10 ^ n) ≤ round (y * 10 ^ n) := by
    rw [round_eq, round_eq]
    exact Int.floor_mono (by nlinarith)
  have : ((round (x * 10 ^ n) : ℤ) : ℚ) ≤ ((round (y * 10 ^ n) : ℤ) : ℚ) := by
    exact_mod_cast hr
  exact div_le_div_of_nonneg_right this hpow.le

lemma roundTo_zero (n : ℕ) : roundTo n 0 = 0 := by
  unfold roundTo
  simp

lemma roundTo_one (n : ℕ) : roundTo n 1 = 1 := by
  unfold roundTo
  have hpow : (0 : ℚ) < 10 ^ n := by positivity
  have h1 : (1 : ℚ) * 10 ^ n = ((10 ^ n : ℤ) : ℚ) := by push_cast; ring
  rw [h1, round_intCast]
  field_simp

lemma roundTo_nonneg {n : ℕ} {x : ℚ} (h : 0 ≤ x) : 0 ≤ roundTo n x := by
  have := roundTo_mono (n := n) h
  rwa [roundTo_zero] at this

lemma roundTo_le_one {n : ℕ} {x : ℚ} (h : x ≤ 1) : roundTo n x ≤ 1 := by
  have := roundTo_mono (n := n) h
  rwa [roundTo_one] at this

namespace AssignmentService

/-- Unfolding of `score_worker` when the worker is not excluded by the hard
distance filter. -/
lemma score_worker_eq (hav : Dist) (t : Ticket) (w : Worker) (p d : ℚ)
    (h : proximity_data hav t w = some (p, d)) :
    score_worker hav t w = some
      { worker_id := w.id
        worker_name := w.name
        skill_match_score := roundTo 3 (skill_score t w)
        proximity_score := roundTo 3 p
        availability_score := roundTo 3 (availability_score w)
        performance_score := roundTo 3 (performance_score w)
        overall_score := roundTo 3 (overall_score (skill_score t w) p
          (availability_score w) (performance_score w))
        travel_distance_km := roundTo 2 d
        travel_time_minutes := roundTo 1 (d / AVG_SPEED_KMH * 60)
        matching_skills := (skill_data t w).2.1
        missing_skills := (skill_data t w).2.2 } := by
  unfold score_worker
  rw [h]

lemma score_worker_eq_none (hav : Dist) (t : Ticket) (w : Worker)
    (h : proximity_data hav t w = none) :
    score_worker hav t w = none := by
  unfold score_worker
  rw [h]

lemma availability_score_eq_one (w : Worker) : availability_score w = 1 := by
  unfold availability_score
  split <;> norm_num

/-- A worker with a `none` score contributes nothing to the scored list. -/
lemma scored_workers_middle_none (hav : Dist) (t : Ticket) (w : Worker)
    (h : score_worker hav t w = none) (l₁ l₂ : List Worker) :
    scored_workers hav t (l₁ ++ w :: l₂) = scored_workers hav t (l₁ ++ l₂) := by
  unfold scored_workers
  rw [List.filter_append, List.filter_append, List.filter_cons]
  by_cases hc : (w.availability_status == "available" && w.active) = true
  · simp only [hc, if_true, List.filterMap_append, List.filterMap_cons, h]
  · simp only [hc, if_false, Bool.false_eq_true]

lemma rank_workers_middle_none (hav : Dist) (t : Ticket) (w : Worker)
    (h : score_worker hav t w = none) (l₁ l₂ : List Worker) :
    rank_workers hav t (l₁ ++ w :: l₂) = rank_workers hav t (l₁ ++ l₂) := by
  unfold rank_workers
  rw [scored_workers_middle_none hav t w h l₁ l₂]

lemma roundTo_half : roundTo 3 (0.5 : ℚ) = 0.5 := by
  norm_num [roundTo, round_eq]

lemma roundTo_twenty : roundTo 2 (20.0 : ℚ) = 20 := by
  norm_num [roundTo, round_eq]

lemma roundTo_thirty : roundTo 1 (30 : ℚ) = 30 := by
  norm_num [roundTo, round_eq]

/-- Claim C3: proximity handling of `_score_worker`.  When a position is unknown
the proximity score is 0.5 with an assumed 20 km distance (hence a 30 minute travel
time at 40 km/h); when the distance exceeds 100 km no score is produced and the
worker contributes nothing to the ranking; otherwise the proximity score is
max(0, 1 - distance/100) rounded to 3 places. -/
theorem score_worker_proximity_cases (hav : Dist) (t : Ticket) (w : Worker) :
    (haversine_distance hav t.location_lat t.location_lng w.current_lat w.current_lng
        = none →
      (score_worker hav t w).isSome = true ∧
      ∀ s, score_worker hav t w = some s →
        s.proximity_score = 0.5 ∧ s.travel_distance_km = 20 ∧
        s.travel_time_minutes = 30) ∧
    (∀ d, haversine_distance hav t.location_lat t.location_lng w.current_lat
        w.current_lng = some d →
      MAX_DISTANCE_KM < d →
      score_worker hav t w = none ∧
      ∀ l₁ l₂, rank_workers hav t (l₁ ++ w :: l₂) = rank_workers hav t (l₁ ++ l₂)) ∧
    (∀ d, haversine_distance hav t.location_lat t.location_lng w.current_lat
        w.current_lng = some d →
      d ≤ MAX_DISTANCE_KM →
      (score_worker hav t w).isSome = true ∧
      ∀ s, score_worker hav t w = some s →
        s.proximity_score = roundTo 3 (max 0 (1 - d / MAX_DISTANCE_KM)) ∧
        s.travel_distance_km = roundTo 2 d ∧
        s.travel_time_minutes = roundTo 1 (d / AVG_SPEED_KMH * 60)) := by
  refine ⟨?_, ?_, ?_⟩
  · intro h
    have hp : proximity_data hav t w = some (0.5, 20.0) := by
      unfold proximity_data
      rw [h]
    rw [score_worker_eq hav t w _ _ hp]
    refine ⟨rfl, ?_⟩
    intro s hs
    obtain rfl : _ = s := Option.some_injective _ hs
    refine ⟨roundTo_half, roundTo_twenty, ?_⟩
    show roundTo 1 (20.0 / AVG_SPEED_KMH * 60) = 30
    norm_num [AVG_SPEED_KMH, roundTo, round_eq]
  · intro d h hgt
    have hp : proximity_data hav t w = none := by
      unfold proximity_data
      rw [h]
      simp [hgt]
    have hnone := score_worker_eq_none hav t w hp
    exact ⟨hnone, fun l₁ l₂ => rank_workers_middle_none hav t w hnone l₁ l₂⟩
  · intro d h hle
    have hp : proximity_data hav t w = some (max 0 (1 - d / MAX_DISTANCE_KM), d) := by
      unfold proximity_data
      rw [h]
      simp [not_lt.mpr hle]
    rw [score_worker_eq hav t w _ _ hp]
    refine ⟨rfl, ?_⟩
    intro s hs
    obtain rfl : _ = s := Option.some_injective _ hs
    exact ⟨rfl, rfl, rfl⟩

/-- Witness for claim C3, exercising all three proximity branches on concrete
inputs. -/
theorem score_worker_proximity_cases_witness :
    (haversine_distance hav0 tN.location_lat tN.location_lng w0.current_lat
        w0.current_lng = none ∧
      (score_worker hav0 tN w0).isSome = true) ∧
    (haversine_distance hav150 t0.location_lat t0.location_lng w0.current_lat
        w0.current_lng = some 150 ∧ MAX_DISTANCE_KM < 150 ∧
      score_worker hav150 t0 w0 = none) ∧
    (haversine_distance hav0 t0.location_lat t0.location_lng w0.current_lat
        w0.current_lng = some 0 ∧ (0 : ℚ) ≤ MAX_DISTANCE_KM ∧
      (score_worker hav0 t0 w0).isSome = true) :=
  ⟨⟨rfl, ((score_worker_proximity_cases hav0 tN w0).1 rfl).1⟩,
   ⟨rfl, by norm_num [MAX_DISTANCE_KM],
    ((score_worker_proximity_cases hav150 t0 w0).2.1 150 rfl
      (by norm_num [MAX_DISTANCE_KM])).1⟩,
   ⟨rfl, by norm_num [MAX_DISTANCE_KM],
    ((score_worker_proximity_cases hav0 t0 w0).2.2 0 rfl
      (by norm_num [MAX_DISTANCE_KM])).1⟩⟩

/-- Inversion for `score_worker`: a produced score determines the proximity data
and all record fields. -/
lemma score_worker_some_inv (hav : Dist) (t : Ticket) (w : Worker) (s : WorkerScore)
    (hs : score_worker hav t w = some s) :
    ∃ p d, proximity_data hav t w = some (p, d) ∧
      s = { worker_id := w.id
            worker_name := w.name
            skill_match_score := roundTo 3 (skill_score t w)
            proximity_score := roundTo 3 p
            availability_score := roundTo 3 (availability_score w)
            performance_score := roundTo 3 (performance_score w)
            overall_score := roundTo 3 (overall_score (skill_score t w) p
              (availability_score w) (performance_score w))
            travel_distance_km := roundTo 2 d
            travel_time_minutes := roundTo 1 (d / AVG_SPEED_KMH * 60)
            matching_skills := (skill_data t w).2.1
            missing_skills := (skill_data t w).2.2 } := by
  cases hp : proximity_data hav t w with
  | none =>
    rw [score_worker_eq_none hav t w hp] at hs
    exact absurd hs (by simp)
  | some pd =>
    obtain ⟨p, d⟩ := pd
    refine ⟨p, d, rfl, ?_⟩
    rw [score_worker_eq hav t w p d hp] at hs
    exact (Option.some_injective _ hs).symm

/-- Claim C4: the skill-match component.  With no required skills the base score is
1 with the full worker skill set matching and nothing missing; with required skills
the base score is the fraction of required skills covered; in both cases the
skill-level bonus is added and the result clamped to at most 1. -/
theorem score_worker_skill_match (hav : Dist) (t : Ticket) (w : Worker) :
    (level_bonus "junior" = 0 ∧ level_bonus "intermediate" = 0.05 ∧
     level_bonus "senior" = 0.10 ∧ level_bonus "expert" = 0.15) ∧
    (t.skills_required.toFinset = ∅ →
      skill_data t w = (1, w.skills.toFinset, ∅) ∧
      ∀ s, score_worker hav t w = some s →
        s.skill_match_score = roundTo 3 (min 1 (1 + level_bonus w.skill_level)) ∧
        s.matching_skills = w.skills.toFinset ∧ s.missing_skills = ∅) ∧
    (t.skills_required.toFinset ≠ ∅ →
      (skill_data t w).1 =
        ((t.skills_required.toFinset ∩ w.skills.toFinset).card : ℚ) /
          (t.skills_required.toFinset.card : ℚ) ∧
      ∀ s, score_worker hav t w = some s →
        s.skill_match_score =
          roundTo 3 (min 1 ((skill_data t w).1 + level_bonus w.skill_level))) := by
  refine ⟨⟨rfl, rfl, rfl, rfl⟩, ?_, ?_⟩
  · intro h
    have hsd : skill_data t w = (1, w.skills.toFinset, ∅) := by
      unfold skill_data
      simp [h]
    refine ⟨hsd, ?_⟩
    intro s hs
    obtain ⟨p, d, hp, rfl⟩ := score_worker_some_inv hav t w s hs
    refine ⟨?_, ?_, ?_⟩
    · show roundTo 3 (skill_score t w) = _
      unfold skill_score
      rw [hsd]
    · show (skill_data t w).2.1 = _
      rw [hsd]
    · show (skill_data t w).2.2 = _
      rw [hsd]
  · intro h
    have hsd : (skill_data t w).1 =
        ((t.skills_required.toFinset ∩ w.skills.toFinset).card : ℚ) /
          (t.skills_required.toFinset.card : ℚ) := by
      unfold skill_data
      simp [h]
    refine ⟨hsd, ?_⟩
    intro s hs
    obtain ⟨p, d, hp, rfl⟩ := score_worker_some_inv hav t w s hs
    rfl

/-- Witness for claim C4, exercising both branches on concrete inputs. -/
theorem score_worker_skill_match_witness :
    (tN.skills_required.toFinset = ∅ ∧ skill_data tN w0 = (1, w0.skills.toFinset, ∅)) ∧
    (t0.skills_required.toFinset ≠ ∅ ∧
      (skill_data t0 w0).1 =
        ((t0.skills_required.toFinset ∩ w0.skills.toFinset).card : ℚ) /
          (t0.skills_required.toFinset.card : ℚ)) :=
  ⟨⟨rfl, ((score_worker_skill_match hav0 tN w0).2.1 rfl).1⟩,
   ⟨by decide, ((score_worker_skill_match hav0 t0 w0).2.2 (by decide)).1⟩⟩

lemma proximity_data_t0_w0 : proximity_data hav0 t0 w0 = some (1, 0) := by
  unfold proximity_data haversine_distance hav0 t0 w0
  norm_num [MAX_DISTANCE_KM]

lemma score_worker_t0_w0 : score_worker hav0 t0 w0 = some s0 :=
  score_worker_eq hav0 t0 w0 1 0 proximity_data_t0_w0

/-- Claim C5: availability is fixed at 1, the overall score is the weighted
combination 0.40 skill + 0.30 proximity + 0.20 availability + 0.10 performance with
performance = 0.6 (rating / 5) + 0.4 first-time-fix rate, and scores are rounded to
3 places, distance to 2, time to 1, before being returned. -/
theorem score_worker_weights_and_rounding (hav : Dist) (t : Ticket) (w : Worker)
    (p d : ℚ) (hp : proximity_data hav t w = some (p, d)) :
    ∀ s, score_worker hav t w = some s →
      s.availability_score = 1 ∧
      s.overall_score = roundTo 3 (0.40 * skill_score t w + 0.30 * p + 0.20 * 1 +
        0.10 * performance_score w) ∧
      performance_score w = 0.6 * (w.performance_rating / 5.0) +
        0.4 * w.first_time_fix_rate ∧
      s.skill_match_score = roundTo 3 (skill_score t w) ∧
      s.proximity_score = roundTo 3 p ∧
      s.performance_score = roundTo 3 (performance_score w) ∧
      s.travel_distance_km = roundTo 2 d ∧
      s.travel_time_minutes = roundTo 1 (d / AVG_SPEED_KMH * 60) := by
  intro s hs
  obtain ⟨p', d', hp', rfl⟩ := score_worker_some_inv hav t w s hs
  obtain ⟨rfl, rfl⟩ : p = p' ∧ d = d' := by
    rw [hp] at hp'
    have := Option.some_injective _ hp'
    exact ⟨congrArg Prod.fst this, congrArg Prod.snd this⟩
  refine ⟨?_, ?_, ?_, rfl, rfl, rfl, rfl, rfl⟩
  · show roundTo 3 (availability_score w) = 1
    rw [availability_score_eq_one, roundTo_one]
  · show roundTo 3 (overall_score (skill_score t w) p (availability_score w)
      (performance_score w)) = _
    unfold overall_score WEIGHT_SKILL_MATCH WEIGHT_PROXIMITY WEIGHT_AVAILABILITY
      WEIGHT_PERFORMANCE
    rw [availability_score_eq_one]
  · unfold performance_score
    ring

/-- Witness for claim C5 on concrete inputs. -/
theorem score_worker_weights_and_rounding_witness :
    proximity_data hav0 t0 w0 = some (1, 0) ∧
    score_worker hav0 t0 w0 = some s0 ∧
    s0.availability_score = 1 :=
  ⟨proximity_data_t0_w0, score_worker_t0_w0,
   (score_worker_weights_and_rounding hav0 t0 w0 1 0 proximity_data_t0_w0 s0
     score_worker_t0_w0).1⟩

lemma level_bonus_nonneg (level : String) : 0 ≤ level_bonus level := by
  unfold level_bonus
  split_ifs <;> norm_num

lemma skill_data_fst_bounds (t : Ticket) (w : Worker) :
    0 ≤ (skill_data t w).1 ∧ (skill_data t w).1 ≤ 1 := by
  unfold skill_data
  by_cases h : t.skills_required.toFinset = ∅
  · simp [h]
  · rw [if_neg h]
    have hcardpos : 0 < t.skills_required.toFinset.card :=
      Finset.card_pos.mpr (Finset.nonempty_iff_ne_empty.mpr h)
    have hle : (t.skills_required.toFinset ∩ w.skills.toFinset).card ≤
        t.skills_required.toFinset.card :=
      Finset.card_le_card Finset.inter_subset_left
    constructor
    · positivity
    · show ((t.skills_required.toFinset ∩ w.skills.toFinset).card : ℚ) /
        (t.skills_required.toFinset.card : ℚ) ≤ 1
      rw [div_le_one (by exact_mod_cast hcardpos)]
      exact_mod_cast hle

lemma skill_score_bounds (t : Ticket) (w : Worker) :
    0 ≤ skill_score t w ∧ skill_score t w ≤ 1 := by
  unfold skill_score
  refine ⟨le_min (by norm_num) ?_, min_le_left _ _⟩
  exact add_nonneg (skill_data_fst_bounds t w).1 (level_bonus_nonneg _)

lemma haversine_distance_nonneg (hav : Dist) (hnn : ∀ a b c d, 0 ≤ hav a b c d)
    {l1 l2 l3 l4 : Option ℚ} {x : ℚ}
    (h : haversine_distance hav l1 l2 l3 l4 = some x) : 0 ≤ x := by
  unfold haversine_distance at h
  rcases l1 with _ | a <;> rcases l2 with _ | b <;> rcases l3 with _ | c <;>
    rcases l4 with _ | d <;> simp_all
  rw [← h]
  exact hnn a b c d

lemma proximity_data_bounds (hav : Dist) (t : Ticket) (w : Worker) (pd : ℚ × ℚ)
    (hnn : ∀ a b c d, 0 ≤ hav a b c d)
    (h : proximity_data hav t w = some pd) :
    0 ≤ pd.1 ∧ pd.1 ≤ 1 ∧ 0 ≤ pd.2 := by
  unfold proximity_data at h
  cases hh : haversine_distance hav t.location_lat t.location_lng w.current_lat
      w.current_lng with
  | none =>
    rw [hh] at h
    obtain rfl := Option.some_inj.mp h
    norm_num
  | some x =>
    rw [hh] at h
    have hx : 0 ≤ x := haversine_distance_nonneg hav hnn hh
    have h2 : (if MAX_DISTANCE_KM < x then none
        else some (0 ⊔ (1 - x / MAX_DISTANCE_KM), x)) = some pd := h
    by_cases hgt : MAX_DISTANCE_KM < x
    · rw [if_pos hgt] at h2
      exact absurd h2 (by simp)
    · rw [if_neg hgt] at h2
      obtain rfl := Option.some_inj.mp h2
      have hdov : (0 : ℚ) ≤ x / MAX_DISTANCE_KM := by
        unfold MAX_DISTANCE_KM
        positivity
      refine ⟨le_max_left _ _, max_le (by norm_num) (by linarith), hx⟩

lemma performance_score_bounds (w : Worker)
    (hr0 : 0 ≤ w.performance_rating) (hr5 : w.performance_rating ≤ 5)
    (hf0 : 0 ≤ w.first_time_fix_rate) (hf1 : w.first_time_fix_rate ≤ 1) :
    0 ≤ performance_score w ∧ performance_score w ≤ 1 := by
  unfold performance_score
  constructor <;> nlinarith

/-- Claim C7: for a worker with a rating in [0, 5] and a first-time-fix rate in
[0, 1], every produced score has its four sub-scores and the weighted overall score
in [0, 1]. -/
theorem score_worker_bounds (hav : Dist) (t : Ticket) (w : Worker) (s : WorkerScore)
    (hnn : ∀ a b c d, 0 ≤ hav a b c d)
    (hr0 : 0 ≤ w.performance_rating) (hr5 : w.performance_rating ≤ 5)
    (hf0 : 0 ≤ w.first_time_fix_rate) (hf1 : w.first_time_fix_rate ≤ 1)
    (hs : score_worker hav t w = some s) :
    (0 ≤ s.skill_match_score ∧ s.skill_match_score ≤ 1) ∧
    (0 ≤ s.proximity_score ∧ s.proximity_score ≤ 1) ∧
    (0 ≤ s.availability_score ∧ s.availability_score ≤ 1) ∧
    (0 ≤ s.performance_score ∧ s.performance_score ≤ 1) ∧
    (0 ≤ s.overall_score ∧ s.overall_score ≤ 1) := by
  obtain ⟨p, d, hp, rfl⟩ := score_worker_some_inv hav t w s hs
  obtain ⟨hp0, hp1, hd0⟩ := proximity_data_bounds hav t w (p, d) hnn hp
  obtain ⟨hs0, hs1⟩ := skill_score_bounds t w
  obtain ⟨hf0', hf1'⟩ := performance_score_bounds w hr0 hr5 hf0 hf1
  have hav1 := availability_score_eq_one w
  have hover0 : 0 ≤ overall_score (skill_score t w) p (availability_score w)
      (performance_score w) := by
    unfold overall_score WEIGHT_SKILL_MATCH WEIGHT_PROXIMITY WEIGHT_AVAILABILITY
      WEIGHT_PERFORMANCE
    rw [hav1]
    nlinarith
  have hover1 : overall_score (skill_score t w) p (availability_score w)
      (performance_score w) ≤ 1 := by
    unfold overall_score WEIGHT_SKILL_MATCH WEIGHT_PROXIMITY WEIGHT_AVAILABILITY
      WEIGHT_PERFORMANCE
    rw [hav1]
    nlinarith
  refine ⟨⟨roundTo_nonneg hs0, roundTo_le_one hs1⟩,
    ⟨roundTo_nonneg hp0, roundTo_le_one hp1⟩,
    ⟨roundTo_nonneg (by rw [hav1]; norm_num), roundTo_le_one (by rw [hav1])⟩,
    ⟨roundTo_nonneg hf0', roundTo_le_one hf1'⟩,
    ⟨roundTo_nonneg hover0, roundTo_le_one hover1⟩⟩

/-- Witness for claim C7 on concrete inputs. -/
theorem score_worker_bounds_witness :
    (0 : ℚ) ≤ hav0 0 0 0 0 ∧
    (0 ≤ w0.performance_rating ∧ w0.performance_rating ≤ 5) ∧
    (0 ≤ w0.first_time_fix_rate ∧ w0.first_time_fix_rate ≤ 1) ∧
    score_worker hav0 t0 w0 = some s0 ∧
    (0 ≤ s0.overall_score ∧ s0.overall_score ≤ 1) :=
  ⟨le_refl 0, ⟨by norm_num [w0], by norm_num [w0]⟩,
   ⟨by norm_num [w0], by norm_num [w0]⟩, score_worker_t0_w0,
   (score_worker_bounds hav0 t0 w0 s0 (fun _ _ _ _ => le_refl 0)
     (by norm_num [w0]) (by norm_num [w0]) (by norm_num [w0]) (by norm_num [w0])
     score_worker_t0_w0).2.2.2.2⟩

lemma score_ge_trans (a b c : WorkerScore) (hab : score_ge a b = true)
    (hbc : score_ge b c = true) : score_ge a c = true := by
  simp only [score_ge, decide_eq_true_eq] at *
  exact le_trans hbc hab

lemma score_ge_total (a b : WorkerScore) : (score_ge a b || score_ge b a) = true := by
  simp only [score_ge, Bool.or_eq_true, decide_eq_true_eq]
  exact le_total b.overall_score a.overall_score

/-- Claim C1: `rank_workers` output is sorted by non-increasing overall score, and
scores with equal overall score keep the relative order in which they were produced
from the input worker list (stable sort): filtering both the output and the
pre-sort scored list down to any fixed overall score value yields the same list. -/
theorem rank_workers_sorted_stable (hav : Dist) (t : Ticket) (ws : List Worker) :
    (rank_workers hav t ws).Pairwise
      (fun a b => b.overall_score ≤ a.overall_score) ∧
    ∀ q : ℚ, (rank_workers hav t ws).filter (fun s => s.overall_score == q) =
      (scored_workers hav t ws).filter (fun s => s.overall_score == q) := by
  constructor
  · have h := List.sorted_mergeSort score_ge_trans score_ge_total
      (scored_workers hav t ws)
    exact h.imp fun hab => by
      simpa only [score_ge, decide_eq_true_eq] using hab
  · intro q
    set l := scored_workers hav t ws with hl
    set m := l.mergeSort score_ge with hm
    set p : WorkerScore → Bool := fun s => s.overall_score == q with hp
    have h1 : (l.filter p).Sublist l := List.filter_sublist l
    have hpw : (l.filter p).Pairwise (fun a b => score_ge a b = true) := by
      apply List.pairwise_of_forall_mem_list
      intro a ha b hb
      have ha' : a.overall_score = q := by
        have := (List.mem_filter.mp ha).2
        simpa [hp] using this
      have hb' : b.overall_score = q := by
        have := (List.mem_filter.mp hb).2
        simpa [hp] using this
      simp [score_ge, ha', hb']
    have h2 : (l.filter p).Sublist m :=
      List.sublist_mergeSort score_ge_trans score_ge_total hpw h1
    have h3 : (l.filter p).filter p = l.filter p :=
      List.filter_eq_self.mpr fun a ha => (List.mem_filter.mp ha).2
    have h4 : (l.filter p).Sublist (m.filter p) := by
      have := List.Sublist.filter p h2
      rwa [h3] at this
    have h5 : (m.filter p).Perm (l.filter p) :=
      List.Perm.filter p (List.mergeSort_perm l score_ge)
    exact (List.Sublist.eq_of_length h4 h5.length_eq.symm).symm

end AssignmentService

lemma ok_bind {α β : Type} (a : α) (f : α → Except String β) :
    ((Except.ok a : Except String α) >>= f) = f a := rfl

lemma error_bind {α β : Type} (e : String) (f : α → Except String β) :
    ((Except.error e : Except String α) >>= f) = .error e := rfl

namespace OptimizationService

lemma jobAt_mem {jobs : List Job} {i : ℕ} (h : i < jobs.length) :
    jobAt jobs i ∈ jobs := by
  unfold jobAt
  rw [List.getD_eq_getElem _ _ h]
  exact List.getElem_mem h

lemma present_lat {jobs : List Job} (hp : AllPresent jobs) {i : ℕ}
    (h : i < jobs.length) : getLat (jobAt jobs i) = .ok (latD (jobAt jobs i)) := by
  obtain ⟨hl, _⟩ := hp _ (jobAt_mem h)
  unfold getLat latD
  cases hx : (jobAt jobs i).location_lat with
  | none => rw [hx] at hl; simp at hl
  | some v => simp [hx]

lemma present_lng {jobs : List Job} (hp : AllPresent jobs) {i : ℕ}
    (h : i < jobs.length) : getLng (jobAt jobs i) = .ok (lngD (jobAt jobs i)) := by
  obtain ⟨_, hl⟩ := hp _ (jobAt_mem h)
  unfold getLng lngD
  cases hx : (jobAt jobs i).location_lng with
  | none => rw [hx] at hl; simp at hl
  | some v => simp [hx]

lemma travel_minutes_nonneg {d : ℚ} (h : 0 ≤ d) : 0 ≤ travel_minutes d := by
  unfold travel_minutes AVG_SPEED_KMH
  norm_num
  positivity

/-- With all positions present and in-bounds indices, the fallible scan agrees
with its pure reformulation. -/
lemma scanNearest_eq_pure (hav : Dist) (jobs : List Job) (hp : AllPresent jobs) :
    ∀ (l : List ℕ) (cur : ℚ × ℚ) (acc : Option (ℕ × ℚ)),
      (∀ i ∈ l, i < jobs.length) →
      scanNearest hav jobs cur l acc = .ok (scanPure hav jobs cur l acc) := by
  intro l
  induction l with
  | nil => intro cur acc _; rfl
  | cons i rest ih =>
    intro cur acc hb
    have hi : i < jobs.length := hb i (List.mem_cons_self i rest)
    rw [scanNearest, present_lat hp hi, ok_bind, present_lng hp hi, ok_bind]
    have hpure : scanPure hav jobs cur (i :: rest) acc = scanPure hav jobs cur rest
        (match acc with
          | none => some (i, jdist hav jobs cur i)
          | some (bi, bd) =>
            if jdist hav jobs cur i < bd then some (i, jdist hav jobs cur i)
            else some (bi, bd)) := rfl
    rw [hpure]
    exact ih cur _ fun j hj => hb j (List.mem_cons_of_mem i hj)

/-- Accumulator characterization of the pure scan: the result is the first
strictly-smaller-than-everything-before-it minimum, or the accumulator itself when
nothing beats it. -/
lemma scanPure_acc_some (hav : Dist) (jobs : List Job) (cur : ℚ × ℚ) :
    ∀ (l : List ℕ) (bi : ℕ) (bd : ℚ),
      ∃ ri rd, scanPure hav jobs cur l (some (bi, bd)) = some (ri, rd) ∧
        ((ri = bi ∧ rd = bd ∧ ∀ j ∈ l, bd ≤ jdist hav jobs cur j) ∨
         (rd < bd ∧ rd = jdist hav jobs cur ri ∧
           (∀ j ∈ l, rd ≤ jdist hav jobs cur j) ∧
           ∃ l₁ l₂, l = l₁ ++ ri :: l₂ ∧ ∀ j ∈ l₁, rd < jdist hav jobs cur j)) := by
  intro l
  induction l with
  | nil =>
    intro bi bd
    exact ⟨bi, bd, rfl, Or.inl ⟨rfl, rfl, by simp⟩⟩
  | cons i rest ih =>
    intro bi bd
    by_cases hlt : jdist hav jobs cur i < bd
    · obtain ⟨ri, rd, heq, hc⟩ := ih i (jdist hav jobs cur i)
      refine ⟨ri, rd, ?_, ?_⟩
      · have hstep : scanPure hav jobs cur (i :: rest) (some (bi, bd)) =
            scanPure hav jobs cur rest (if jdist hav jobs cur i < bd then
              some (i, jdist hav jobs cur i) else some (bi, bd)) := rfl
        rw [hstep, if_pos hlt]
        exact heq
      · rcases hc with ⟨hri, hrd, hall⟩ | ⟨h1, h2, h3, l₁, l₂, hdec, hstr⟩
        · refine Or.inr ⟨hrd ▸ hlt, by rw [hrd, hri], ?_, [], rest,
            by simp [hri], by simp⟩
          intro j hj
          rcases List.mem_cons.mp hj with rfl | hj
          · rw [hrd]
          · rw [hrd]; exact hall j hj
        · refine Or.inr ⟨lt_trans h1 hlt, h2, ?_, i :: l₁, l₂,
            by rw [hdec, List.cons_append], ?_⟩
          · intro j hj
            rcases List.mem_cons.mp hj with rfl | hj
            · exact le_of_lt h1
            · exact h3 j hj
          · intro j hj
            rcases List.mem_cons.mp hj with rfl | hj
            · exact h1
            · exact hstr j hj
    · obtain ⟨ri, rd, heq, hc⟩ := ih bi bd
      refine ⟨ri, rd, ?_, ?_⟩
      · have hstep : scanPure hav jobs cur (i :: rest) (some (bi, bd)) =
            scanPure hav jobs cur rest (if jdist hav jobs cur i < bd then
              some (i, jdist hav jobs cur i) else some (bi, bd)) := rfl
        rw [hstep, if_neg hlt]
        exact heq
      · push_neg at hlt
        rcases hc with ⟨hri, hrd, hall⟩ | ⟨h1, h2, h3, l₁, l₂, hdec, hstr⟩
        · refine Or.inl ⟨hri, hrd, ?_⟩
          intro j hj
          rcases List.mem_cons.mp hj with rfl | hj
          · exact hlt
          · exact hall j hj
        · refine Or.inr ⟨h1, h2, ?_, i :: l₁, l₂,
            by rw [hdec, List.cons_append], ?_⟩
          · intro j hj
            rcases List.mem_cons.mp hj with rfl | hj
            · exact le_of_lt (lt_of_lt_of_le h1 hlt)
            · exact h3 j hj
          · intro j hj
            rcases List.mem_cons.mp hj with rfl | hj
            · exact lt_of_lt_of_le h1 hlt
            · exact hstr j hj

/-- On a nonempty list with empty accumulator, the pure scan returns the first
index attaining the minimum distance. -/
lemma scanPure_cons_spec (hav : Dist) (jobs : List Job) (cur : ℚ × ℚ) (i : ℕ)
    (rest : List ℕ) :
    ∃ ri rd, scanPure hav jobs cur (i :: rest) none = some (ri, rd) ∧
      rd = jdist hav jobs cur ri ∧
      (∀ j ∈ i :: rest, rd ≤ jdist hav jobs cur j) ∧
      ∃ l₁ l₂, i :: rest = l₁ ++ ri :: l₂ ∧
        ∀ j ∈ l₁, rd < jdist hav jobs cur j := by
  obtain ⟨ri, rd, heq, hc⟩ := scanPure_acc_some hav jobs cur rest i (jdist hav jobs cur i)
  have hstep : scanPure hav jobs cur (i :: rest) none =
      scanPure hav jobs cur rest (some (i, jdist hav jobs cur i)) := rfl
  rcases hc with ⟨hri, hrd, hall⟩ | ⟨h1, h2, h3, l₁, l₂, hdec, hstr⟩
  · refine ⟨ri, rd, hstep.trans heq, by rw [hrd, hri], ?_, [], rest,
      by simp [hri], by simp⟩
    intro j hj
    rcases List.mem_cons.mp hj with rfl | hj
    · rw [hrd]
    · rw [hrd]; exact hall j hj
  · refine ⟨ri, rd, hstep.trans heq, h2, ?_, i :: l₁, l₂,
      by rw [hdec, List.cons_append], ?_⟩
    · intro j hj
      rcases List.mem_cons.mp hj with rfl | hj
      · exact le_of_lt h1
      · exact h3 j hj
    · intro j hj
      rcases List.mem_cons.mp hj with rfl | hj
      · exact h1
      · exact hstr j hj

/-- In a strictly increasing index list, the first index attaining the minimum is
the least index attaining it: all smaller unvisited indices are strictly farther. -/
lemma first_min_least_index {l l₁ l₂ : List ℕ} {ri : ℕ} {rd : ℚ} (D : ℕ → ℚ)
    (hs : l.Pairwise (· < ·)) (hdec : l = l₁ ++ ri :: l₂)
    (hstr : ∀ j ∈ l₁, rd < D j) :
    ∀ j ∈ l, j < ri → rd < D j := by
  intro j hj hlt
  subst hdec
  rcases List.mem_append.mp hj with hj1 | hj2
  · exact hstr j hj1
  · rcases List.mem_cons.mp hj2 with rfl | hj3
    · exact absurd hlt (lt_irrefl j)
    · have := (List.pairwise_append.mp hs).2.1
      have hri_lt : ri < j := (List.pairwise_cons.mp this).1 j hj3
      omega

/-- The pure nearest-neighbor loop is a greedy order and a permutation of the
unvisited indices, provided the fuel covers the number of unvisited indices and
the indices are strictly increasing. -/
lemma nnPure_spec (hav : Dist) (jobs : List Job) :
    ∀ (fuel : ℕ) (unvisited : List ℕ) (cur : ℚ × ℚ),
      unvisited.length ≤ fuel → unvisited.Pairwise (· < ·) →
      GreedyOrder hav jobs cur unvisited (nnPure hav jobs fuel cur unvisited) ∧
      (nnPure hav jobs fuel cur unvisited).Perm unvisited := by
  intro fuel
  induction fuel with
  | zero =>
    intro unvisited cur hlen _
    obtain rfl : unvisited = [] := List.eq_nil_of_length_eq_zero (Nat.le_zero.mp hlen)
    exact ⟨GreedyOrder.nil cur, List.Perm.refl _⟩
  | succ fuel ih =>
    intro unvisited cur hlen hpw
    cases unvisited with
    | nil => exact ⟨GreedyOrder.nil cur, List.Perm.refl _⟩
    | cons u us =>
      obtain ⟨ri, rd, hscan, hrd, hmin, l₁, l₂, hdec, hstr⟩ :=
        scanPure_cons_spec hav jobs cur u us
      have hmem : ri ∈ u :: us := by
        rw [hdec]
        exact List.mem_append.mpr (Or.inr (List.mem_cons_self _ _))
      have hstep : nnPure hav jobs (fuel + 1) cur (u :: us) =
          (match scanPure hav jobs cur (u :: us) none with
            | none => []
            | some (i, _) =>
              i :: nnPure hav jobs fuel (posD jobs i) ((u :: us).erase i)) := rfl
      have heq : nnPure hav jobs (fuel + 1) cur (u :: us) =
          ri :: nnPure hav jobs fuel (posD jobs ri) ((u :: us).erase ri) := by
        rw [hstep, hscan]
      have herase_len : ((u :: us).erase ri).length ≤ fuel := by
        rw [List.length_erase_of_mem hmem]
        simpa using Nat.le_of_succ_le_succ hlen
      have herase_pw : ((u :: us).erase ri).Pairwise (· < ·) :=
        List.Pairwise.sublist (List.erase_sublist ri (u :: us)) hpw
      have hrec := ih ((u :: us).erase ri) (posD jobs ri) herase_len herase_pw
      constructor
      · rw [heq]
        refine GreedyOrder.cons cur (u :: us) ri _ hmem ?_ ?_ hrec.1
        · intro j hj
          exact hrd ▸ hmin j hj
        · intro j hj hlt
          exact hrd ▸ first_min_least_index (jdist hav jobs cur) hpw hdec hstr j hj hlt
      · rw [heq]
        exact (hrec.2.cons ri).trans (List.perm_cons_erase hmem).symm

/-- With all positions present and in-bounds indices, the fallible loop agrees
with its pure reformulation. -/
lemma nnRoute_eq_pure (hav : Dist) (jobs : List Job) (hp : AllPresent jobs) :
    ∀ (fuel : ℕ) (unvisited : List ℕ) (cur : ℚ × ℚ),
      (∀ i ∈ unvisited, i < jobs.length) →
      nnRoute hav jobs fuel cur unvisited = .ok (nnPure hav jobs fuel cur unvisited) := by
  intro fuel
  induction fuel with
  | zero => intro unvisited cur _; rfl
  | succ fuel ih =>
    intro unvisited cur hb
    cases unvisited with
    | nil => rfl
    | cons u us =>
      obtain ⟨ri, rd, hscan, hrd, hmin, l₁, l₂, hdec, hstr⟩ :=
        scanPure_cons_spec hav jobs cur u us
      have hmem : ri ∈ u :: us := by
        rw [hdec]
        exact List.mem_append.mpr (Or.inr (List.mem_cons_self _ _))
      have hri : ri < jobs.length := hb ri hmem
      have hsn : scanNearest hav jobs cur (u :: us) none = .ok (some (ri, rd)) := by
        rw [scanNearest_eq_pure hav jobs hp (u :: us) cur none hb, hscan]
      have hstep : nnRoute hav jobs (fuel + 1) cur (u :: us) =
          (scanNearest hav jobs cur (u :: us) none >>= fun best =>
            match best with
            | none => .error "ValueError: list.remove(x): x not in list"
            | some (i, _) =>
              getLat (jobAt jobs i) >>= fun lat =>
              getLng (jobAt jobs i) >>= fun lng =>
              nnRoute hav jobs fuel (lat, lng) ((u :: us).erase i) >>= fun rest =>
              .ok (i :: rest)) := rfl
      have hpure : nnPure hav jobs (fuel + 1) cur (u :: us) =
          ri :: nnPure hav jobs fuel (posD jobs ri) ((u :: us).erase ri) := by
        have hstep2 : nnPure hav jobs (fuel + 1) cur (u :: us) =
            (match scanPure hav jobs cur (u :: us) none with
              | none => []
              | some (i, _) =>
                i :: nnPure hav jobs fuel (posD jobs i) ((u :: us).erase i)) := rfl
        rw [hstep2, hscan]
      rw [hstep, hsn, ok_bind]
      show (getLat (jobAt jobs ri) >>= fun lat =>
        getLng (jobAt jobs ri) >>= fun lng =>
        nnRoute hav jobs fuel (lat, lng) ((u :: us).erase ri) >>= fun rest =>
        .ok (ri :: rest)) = _
      rw [present_lat hp hri, ok_bind, present_lng hp hri, ok_bind,
        ih ((u :: us).erase ri) (latD (jobAt jobs ri), lngD (jobAt jobs ri))
          (fun j hj => hb j (List.mem_of_mem_erase hj)), ok_bind, hpure]
      rfl

/-- With all positions present and in-bounds indices, the fallible output
construction agrees with its pure reformulation. -/
lemma buildStops_eq_pure (hav : Dist) (jobs : List Job) (hp : AllPresent jobs) :
    ∀ (ordered : List ℕ) (prev : ℚ × ℚ) (k : ℕ) (td tt : ℚ),
      (∀ i ∈ ordered, i < jobs.length) →
      buildStops hav jobs ordered prev k td tt =
        .ok (buildPure hav jobs ordered prev k td tt) := by
  intro ordered
  induction ordered with
  | nil => intros; rfl
  | cons i rest ih =>
    intro prev k td tt hb
    have hi : i < jobs.length := hb i (List.mem_cons_self i rest)
    have hrec := ih (latD (jobAt jobs i), lngD (jobAt jobs i)) (k + 1)
      (td + hav prev.1 prev.2 (latD (jobAt jobs i)) (lngD (jobAt jobs i)))
      (tt + travel_minutes (hav prev.1 prev.2 (latD (jobAt jobs i))
        (lngD (jobAt jobs i))))
      fun j hj => hb j (List.mem_cons_of_mem i hj)
    simp only [buildStops, present_lat hp hi, present_lng hp hi, ok_bind, hrec]
    rfl

/-- Structure of the pure output construction: 1-based consecutive order fields,
stop payloads in visiting order, totals as accumulator plus leg sums, and
non-decreasing cumulative arrival times (given nonnegative distances). -/
lemma buildPure_spec (hav : Dist) (jobs : List Job)
    (hnn : ∀ a b c d, 0 ≤ hav a b c d) :
    ∀ (ordered : List ℕ) (prev : ℚ × ℚ) (k : ℕ) (td tt : ℚ),
      ((buildPure hav jobs ordered prev k td tt).1.map RouteStop.order =
        List.range' (k + 1) ordered.length) ∧
      ((buildPure hav jobs ordered prev k td tt).1.map stopData =
        ordered.map fun i => jobData (jobAt jobs i)) ∧
      ((buildPure hav jobs ordered prev k td tt).2.1 =
        td + (legDistances hav jobs prev ordered).sum) ∧
      ((buildPure hav jobs ordered prev k td tt).2.2 =
        tt + ((legDistances hav jobs prev ordered).map travel_minutes).sum) ∧
      ((buildPure hav jobs ordered prev k td tt).1.map
        RouteStop.estimated_arrival_minutes).Pairwise (· ≤ ·) ∧
      (∀ s ∈ (buildPure hav jobs ordered prev k td tt).1,
        roundTo 1 tt ≤ s.estimated_arrival_minutes) := by
  intro ordered
  induction ordered with
  | nil =>
    intro prev k td tt
    refine ⟨rfl, rfl, by simp [buildPure, legDistances],
      by simp [buildPure, legDistances], List.Pairwise.nil, by simp [buildPure]⟩
  | cons i rest ih =>
    intro prev k td tt
    obtain ⟨ihA, ihB, ihC, ihD, ihE, ihF⟩ := ih (posD jobs i) (k + 1)
      (td + jdist hav jobs prev i)
      (tt + travel_minutes (jdist hav jobs prev i))
    have hd0 : 0 ≤ jdist hav jobs prev i := hnn _ _ _ _
    have htm0 : 0 ≤ travel_minutes (jdist hav jobs prev i) :=
      travel_minutes_nonneg hd0
    have hstep : buildPure hav jobs (i :: rest) prev k td tt =
        ({ location_lat := latD (jobAt jobs i)
           location_lng := lngD (jobAt jobs i)
           location_address := (jobAt jobs i).location_address
           ticket_id := (jobAt jobs i).ticket_id
           order := k + 1
           distance_from_previous_km := roundTo 2 (jdist hav jobs prev i)
           estimated_arrival_minutes :=
             roundTo 1 (tt + travel_minutes (jdist hav jobs prev i)) } ::
          (buildPure hav jobs rest (posD jobs i) (k + 1)
            (td + jdist hav jobs prev i)
            (tt + travel_minutes (jdist hav jobs prev i))).1,
         (buildPure hav jobs rest (posD jobs i) (k + 1)
            (td + jdist hav jobs prev i)
            (tt + travel_minutes (jdist hav jobs prev i))).2) := rfl
    have hleg : legDistances hav jobs prev (i :: rest) =
        jdist hav jobs prev i :: legDistances hav jobs (posD jobs i) rest := rfl
    refine ⟨?_, ?_, ?_, ?_, ?_, ?_⟩
    · rw [hstep]
      simp only [List.map_cons, ihA, List.length_cons]
      rw [List.range'_succ]
    · rw [hstep]
      simp only [List.map_cons, ihB]
      rfl
    · rw [hstep, hleg]
      simp only [List.sum_cons]
      rw [ihC]
      ring
    · rw [hstep, hleg]
      simp only [List.map_cons, List.sum_cons]
      rw [ihD]
      ring
    · rw [hstep]
      simp only [List.map_cons]
      refine List.pairwise_cons.mpr ⟨?_, ihE⟩
      intro a ha
      obtain ⟨s, hs, rfl⟩ := List.mem_map.mp ha
      exact ihF s hs
    · rw [hstep]
      intro s hs
      rcases List.mem_cons.mp hs with rfl | hs
      · exact roundTo_mono (by linarith)
      · exact le_trans (roundTo_mono (by linarith)) (ihF s hs)

lemma visitOrder_perm (hav : Dist) (start : ℚ × ℚ) (jobs : List Job) :
    (visitOrder hav start jobs).Perm (List.range jobs.length) ∧
    GreedyOrder hav jobs start (List.range jobs.length)
      (visitOrder hav start jobs) := by
  have h := nnPure_spec hav jobs jobs.length (List.range jobs.length) start
    (by rw [List.length_range]) (List.pairwise_lt_range jobs.length)
  exact ⟨h.2, h.1⟩

lemma visitOrder_bounds (hav : Dist) (start : ℚ × ℚ) (jobs : List Job) :
    ∀ i ∈ visitOrder hav start jobs, i < jobs.length := by
  intro i hi
  have := (visitOrder_perm hav start jobs).1.mem_iff.mp hi
  exact List.mem_range.mp this

/-- On nonempty input with all positions present, `optimize_route` succeeds and
returns the pure reformulation. -/
lemma optimize_route_eq_pure (hav : Dist) (start : ℚ × ℚ) (jobs : List Job)
    (hne : jobs ≠ []) (hp : AllPresent jobs) :
    optimize_route hav start jobs = .ok (optimize_route_pure hav start jobs) := by
  unfold optimize_route
  rw [if_neg (show ¬(jobs.isEmpty = true) by simp [List.isEmpty_iff, hne])]
  simp only [nnRoute_eq_pure hav jobs hp jobs.length (List.range jobs.length) start
      fun i hi => List.mem_range.mp hi, ok_bind,
    buildStops_eq_pure hav jobs hp
      (nnPure hav jobs jobs.length start (List.range jobs.length)) start 0 0 0
      (by exact visitOrder_bounds hav start jobs), ok_bind]
  rfl

lemma buildPure_map_stopData (hav : Dist) (jobs : List Job) :
    ∀ (ordered : List ℕ) (prev : ℚ × ℚ) (k : ℕ) (td tt : ℚ),
      (buildPure hav jobs ordered prev k td tt).1.map stopData =
        ordered.map fun i => jobData (jobAt jobs i) := by
  intro ordered
  induction ordered with
  | nil => intros; rfl
  | cons i rest ih =>
    intro prev k td tt
    have hstep : (buildPure hav jobs (i :: rest) prev k td tt).1.map stopData =
        stopData { location_lat := latD (jobAt jobs i)
                   location_lng := lngD (jobAt jobs i)
                   location_address := (jobAt jobs i).location_address
                   ticket_id := (jobAt jobs i).ticket_id
                   order := k + 1
                   distance_from_previous_km := roundTo 2 (jdist hav jobs prev i)
                   estimated_arrival_minutes :=
                     roundTo 1 (tt + travel_minutes (jdist hav jobs prev i)) } ::
          (buildPure hav jobs rest (posD jobs i) (k + 1)
            (td + jdist hav jobs prev i)
            (tt + travel_minutes (jdist hav jobs prev i))).1.map stopData := rfl
    rw [hstep, ih]
    rfl

lemma map_range_jobAt {α : Type} (jobs : List Job) (f : Job → α) :
    (List.range jobs.length).map (fun i => f (jobAt jobs i)) = jobs.map f := by
  apply List.ext_getElem
  · simp
  · intro i h1 h2
    have hi : i < jobs.length := by simpa using h2
    simp only [List.getElem_map, List.getElem_range]
    unfold jobAt
    rw [List.getD_eq_getElem _ _ hi]

/-- Claim C2: on nonempty input with all positions present, the visiting order of
`optimize_route` is exactly the greedy nearest-neighbor order over the stop
indices: at each step the chosen stop minimizes the distance from the current
position over the unvisited stops, ties break to the earliest index, and the
current position advances to the chosen stop, until none remain; the returned
stops carry the job payloads in that order. -/
theorem optimize_route_greedy_nearest (hav : Dist) (start : ℚ × ℚ)
    (jobs : List Job) (hne : jobs ≠ []) (hp : AllPresent jobs) :
    GreedyOrder hav jobs start (List.range jobs.length)
      (visitOrder hav start jobs) ∧
    optimize_route hav start jobs = .ok (optimize_route_pure hav start jobs) ∧
    (optimize_route_pure hav start jobs).stops.map stopData =
      (visitOrder hav start jobs).map fun i => jobData (jobAt jobs i) := by
  refine ⟨(visitOrder_perm hav start jobs).2,
    optimize_route_eq_pure hav start jobs hne hp, ?_⟩
  exact buildPure_map_stopData hav jobs (visitOrder hav start jobs) start 0 0 0

/-- Witness for claim C2 on concrete inputs. -/
theorem optimize_route_greedy_nearest_witness :
    ([job1, job2] ≠ ([] : List Job)) ∧ AllPresent [job1, job2] ∧
    GreedyOrder havAbs [job1, job2] (0, 0) (List.range [job1, job2].length)
      (visitOrder havAbs (0, 0) [job1, job2]) :=
  ⟨by simp, by decide,
   (optimize_route_greedy_nearest havAbs (0, 0) [job1, job2] (by simp)
     (by decide)).1⟩

/-- Claim C10: on nonempty input with all positions present (and nonnegative
distances), `optimize_route` returns a route whose stop payloads are a permutation
of the input job payloads, whose order fields are exactly 1..n in list position,
whose cumulative arrival times are non-decreasing, and whose totals are the sums of
the unrounded per-leg distances and times rounded to 2 and 1 places. -/
theorem optimize_route_route_invariants (hav : Dist) (start : ℚ × ℚ)
    (jobs : List Job) (hnn : ∀ a b c d, 0 ≤ hav a b c d) (hne : jobs ≠ [])
    (hp : AllPresent jobs) :
    optimize_route hav start jobs = .ok (optimize_route_pure hav start jobs) ∧
    ((optimize_route_pure hav start jobs).stops.map stopData).Perm
      (jobs.map jobData) ∧
    (optimize_route_pure hav start jobs).stops.map RouteStop.order =
      List.range' 1 jobs.length ∧
    ((optimize_route_pure hav start jobs).stops.map
      RouteStop.estimated_arrival_minutes).Pairwise (· ≤ ·) ∧
    (optimize_route_pure hav start jobs).total_distance_km =
      roundTo 2 (legDistances hav jobs start (visitOrder hav start jobs)).sum ∧
    (optimize_route_pure hav start jobs).total_time_minutes =
      roundTo 1 ((legDistances hav jobs start (visitOrder hav start jobs)).map
        travel_minutes).sum := by
  obtain ⟨hA, hB, hC, hD, hE, hF⟩ :=
    buildPure_spec hav jobs hnn (visitOrder hav start jobs) start 0 0 0
  have hlen : (visitOrder hav start jobs).length = jobs.length := by
    have := (visitOrder_perm hav start jobs).1.length_eq
    simpa using this
  have hstops : (optimize_route_pure hav start jobs).stops =
      (buildPure hav jobs (visitOrder hav start jobs) start 0 0 0).1 := rfl
  refine ⟨optimize_route_eq_pure hav start jobs hne hp, ?_, ?_, ?_, ?_, ?_⟩
  · rw [hstops, hB]
    refine (((visitOrder_perm hav start jobs).1.map
      fun i => jobData (jobAt jobs i)).trans ?_).trans (List.Perm.refl _)
    rw [map_range_jobAt]
  · rw [hstops, hA, hlen]
  · rw [hstops]
    exact hE
  · show roundTo 2 (buildPure hav jobs (visitOrder hav start jobs) start 0 0 0).2.1 = _
    rw [hC, zero_add]
  · show roundTo 1 (buildPure hav jobs (visitOrder hav start jobs) start 0 0 0).2.2 = _
    rw [hD, zero_add]

/-- Witness for claim C10 on concrete inputs. -/
theorem optimize_route_route_invariants_witness :
    (0 : ℚ) ≤ havAbs 0 0 1 0 ∧ ([job1, job2] ≠ ([] : List Job)) ∧
    AllPresent [job1, job2] ∧
    (optimize_route_pure havAbs (0, 0) [job1, job2]).stops.map RouteStop.order =
      List.range' 1 [job1, job2].length :=
  ⟨by norm_num [havAbs], by simp, by decide,
   (optimize_route_route_invariants havAbs (0, 0) [job1, job2]
     (fun a b c d => by unfold havAbs; positivity) (by simp) (by decide)).2.2.1⟩

/-- The scan raises `KeyError` naming a genuinely missing coordinate field as soon
as any scanned job lacks one. -/
lemma scanNearest_missing (hav : Dist) (jobs : List Job) (cur : ℚ × ℚ) :
    ∀ (l : List ℕ) (acc : Option (ℕ × ℚ)),
      (∃ i ∈ l, (jobAt jobs i).location_lat = none ∨
        (jobAt jobs i).location_lng = none) →
      (scanNearest hav jobs cur l acc = .error "KeyError: location_lat" ∧
        ∃ i ∈ l, (jobAt jobs i).location_lat = none) ∨
      (scanNearest hav jobs cur l acc = .error "KeyError: location_lng" ∧
        ∃ i ∈ l, (jobAt jobs i).location_lng = none) := by
  intro l
  induction l with
  | nil =>
    intro acc h
    obtain ⟨i, hi, _⟩ := h
    exact absurd hi (List.not_mem_nil i)
  | cons i rest ih =>
    intro acc h
    cases hlat : (jobAt jobs i).location_lat with
    | none =>
      left
      have hget : getLat (jobAt jobs i) = .error "KeyError: location_lat" := by
        unfold getLat
        rw [hlat]
      refine ⟨?_, i, List.mem_cons_self i rest, hlat⟩
      rw [scanNearest, hget, error_bind]
    | some lat =>
      have hget : getLat (jobAt jobs i) = .ok lat := by
        unfold getLat
        rw [hlat]
      cases hlng : (jobAt jobs i).location_lng with
      | none =>
        right
        have hget2 : getLng (jobAt jobs i) = .error "KeyError: location_lng" := by
          unfold getLng
          rw [hlng]
        refine ⟨?_, i, List.mem_cons_self i rest, hlng⟩
        rw [scanNearest, hget, ok_bind, hget2, error_bind]
      | some lng =>
        have hget2 : getLng (jobAt jobs i) = .ok lng := by
          unfold getLng
          rw [hlng]
        have hrest : ∃ i2 ∈ rest, (jobAt jobs i2).location_lat = none ∨
            (jobAt jobs i2).location_lng = none := by
          obtain ⟨i2, hi2, hor⟩ := h
          rcases List.mem_cons.mp hi2 with rfl | hi2
          · rcases hor with hx | hx
            · rw [hlat] at hx; exact absurd hx (by simp)
            · rw [hlng] at hx; exact absurd hx (by simp)
          · exact ⟨i2, hi2, hor⟩
        have hred : scanNearest hav jobs cur (i :: rest) acc =
            scanNearest hav jobs cur rest
              (match acc with
                | none => some (i, hav cur.1 cur.2 lat lng)
                | some (bi, bd) =>
                  if hav cur.1 cur.2 lat lng < bd then
                    some (i, hav cur.1 cur.2 lat lng)
                  else some (bi, bd)) := by
          rw [scanNearest, hget, ok_bind, hget2, ok_bind]
        rw [hred]
        rcases ih _ hrest with ⟨herr, i2, hi2, hx⟩ | ⟨herr, i2, hi2, hx⟩
        · exact Or.inl ⟨herr, i2, List.mem_cons_of_mem i hi2, hx⟩
        · exact Or.inr ⟨herr, i2, List.mem_cons_of_mem i hi2, hx⟩

/-- The loop raises the scan error on its first iteration when some unvisited job
lacks a coordinate. -/
lemma nnRoute_missing (hav : Dist) (jobs : List Job) (fuel : ℕ) (cur : ℚ × ℚ)
    (l : List ℕ)
    (h : ∃ i ∈ l, (jobAt jobs i).location_lat = none ∨
      (jobAt jobs i).location_lng = none) :
    (nnRoute hav jobs (fuel + 1) cur l = .error "KeyError: location_lat" ∧
      ∃ i ∈ l, (jobAt jobs i).location_lat = none) ∨
    (nnRoute hav jobs (fuel + 1) cur l = .error "KeyError: location_lng" ∧
      ∃ i ∈ l, (jobAt jobs i).location_lng = none) := by
  cases l with
  | nil =>
    obtain ⟨i, hi, _⟩ := h
    exact absurd hi (List.not_mem_nil i)
  | cons u us =>
    have hstep : nnRoute hav jobs (fuel + 1) cur (u :: us) =
        (scanNearest hav jobs cur (u :: us) none >>= fun best =>
          match best with
          | none => .error "ValueError: list.remove(x): x not in list"
          | some (i, _) =>
            getLat (jobAt jobs i) >>= fun lat =>
            getLng (jobAt jobs i) >>= fun lng =>
            nnRoute hav jobs fuel (lat, lng) ((u :: us).erase i) >>= fun rest =>
            .ok (i :: rest)) := rfl
    rcases scanNearest_missing hav jobs cur (u :: us) none h with
      ⟨herr, hex⟩ | ⟨herr, hex⟩
    · exact Or.inl ⟨by rw [hstep, herr, error_bind], hex⟩
    · exact Or.inr ⟨by rw [hstep, herr, error_bind], hex⟩

/-- Claim C9: a stop list containing a stop with a missing position makes
`optimize_route` reject with a `KeyError` naming a coordinate field that is indeed
missing; no route with a silently substituted default position is ever returned. -/
theorem optimize_route_missing_position_rejects (hav : Dist) (start : ℚ × ℚ)
    (jobs : List Job)
    (h : ∃ j ∈ jobs, j.location_lat = none ∨ j.location_lng = none) :
    (optimize_route hav start jobs = .error "KeyError: location_lat" ∧
      ∃ j ∈ jobs, j.location_lat = none) ∨
    (optimize_route hav start jobs = .error "KeyError: location_lng" ∧
      ∃ j ∈ jobs, j.location_lng = none) := by
  have hne : jobs ≠ [] := by
    rintro rfl
    obtain ⟨j, hj, _⟩ := h
    exact absurd hj (List.not_mem_nil j)
  have hidx : ∃ i ∈ List.range jobs.length, (jobAt jobs i).location_lat = none ∨
      (jobAt jobs i).location_lng = none := by
    obtain ⟨j, hj, hor⟩ := h
    obtain ⟨i, hlt, heq⟩ := List.mem_iff_getElem.mp hj
    refine ⟨i, List.mem_range.mpr hlt, ?_⟩
    unfold jobAt
    rw [List.getD_eq_getElem _ _ hlt, heq]
    exact hor
  obtain ⟨len, hlen⟩ : ∃ len, jobs.length = len + 1 := by
    cases jobs with
    | nil => exact absurd rfl hne
    | cons a l => exact ⟨l.length, rfl⟩
  have hjob : ∀ {i : ℕ}, i ∈ List.range jobs.length →
      jobAt jobs i ∈ jobs := fun hi => jobAt_mem (List.mem_range.mp hi)
  unfold optimize_route
  rw [if_neg (show ¬(jobs.isEmpty = true) by simp [List.isEmpty_iff, hne])]
  rcases nnRoute_missing hav jobs len start (List.range jobs.length) hidx with
    ⟨herr, i, hi, hx⟩ | ⟨herr, i, hi, hx⟩
  · rw [← hlen] at herr
    exact Or.inl ⟨by rw [herr, error_bind], jobAt jobs i, hjob hi, hx⟩
  · rw [← hlen] at herr
    exact Or.inr ⟨by rw [herr, error_bind], jobAt jobs i, hjob hi, hx⟩

/-- Witness for claim C9 on a concrete stop list with a missing latitude. -/
theorem optimize_route_missing_position_rejects_witness :
    optimize_route havAbs (0, 0) [jobMissing] = .error "KeyError: location_lat" ∨
    optimize_route havAbs (0, 0) [jobMissing] = .error "KeyError: location_lng" :=
  (optimize_route_missing_position_rejects havAbs (0, 0) [jobMissing]
    ⟨jobMissing, by simp, Or.inl rfl⟩).imp And.left And.left

/-- Accumulator characterization of the clustering scan: the returned id is the
first worker attaining the minimum distance, or the accumulator when nothing
beats it. -/
lemma nwAux_acc_some (hav : Dist) (t : FTicket) :
    ∀ (l : List FWorker) (bid : Int) (bd : ℚ),
      ∃ rid rd, nearestWorkerAux hav t l (some (bid, bd)) = some (rid, rd) ∧
        ((rid = bid ∧ rd = bd ∧ ∀ v ∈ l, bd ≤ wdist hav t v) ∨
         (rd < bd ∧ (∀ v ∈ l, rd ≤ wdist hav t v) ∧
           ∃ W₁ W₂ w, l = W₁ ++ w :: W₂ ∧ FWorker.id w = rid ∧
             rd = wdist hav t w ∧ ∀ v ∈ W₁, rd < wdist hav t v)) := by
  intro l
  induction l with
  | nil =>
    intro bid bd
    exact ⟨bid, bd, rfl, Or.inl ⟨rfl, rfl, by simp⟩⟩
  | cons w rest ih =>
    intro bid bd
    have hstep : nearestWorkerAux hav t (w :: rest) (some (bid, bd)) =
        nearestWorkerAux hav t rest (if wdist hav t w < bd then
          some (w.id, wdist hav t w) else some (bid, bd)) := rfl
    by_cases hlt : wdist hav t w < bd
    · obtain ⟨rid, rd, heq, hc⟩ := ih w.id (wdist hav t w)
      refine ⟨rid, rd, by rw [hstep, if_pos hlt]; exact heq, ?_⟩
      rcases hc with ⟨hrid, hrd, hall⟩ | ⟨h1, h2, W₁, W₂, w2, hdec, hid, hrdw, hstr⟩
      · refine Or.inr ⟨hrd ▸ hlt, ?_, [], rest, w, rfl, hrid.symm, hrd, by simp⟩
        intro v hv
        rcases List.mem_cons.mp hv with rfl | hv
        · rw [hrd]
        · rw [hrd]; exact hall v hv
      · refine Or.inr ⟨lt_trans h1 hlt, ?_, w :: W₁, W₂, w2,
          by rw [hdec, List.cons_append], hid, hrdw, ?_⟩
        · intro v hv
          rcases List.mem_cons.mp hv with rfl | hv
          · exact le_of_lt h1
          · exact h2 v hv
        · intro v hv
          rcases List.mem_cons.mp hv with rfl | hv
          · exact h1
          · exact hstr v hv
    · obtain ⟨rid, rd, heq, hc⟩ := ih bid bd
      refine ⟨rid, rd, by rw [hstep, if_neg hlt]; exact heq, ?_⟩
      push_neg at hlt
      rcases hc with ⟨hrid, hrd, hall⟩ | ⟨h1, h2, W₁, W₂, w2, hdec, hid, hrdw, hstr⟩
      · refine Or.inl ⟨hrid, hrd, ?_⟩
        intro v hv
        rcases List.mem_cons.mp hv with rfl | hv
        · exact hlt
        · exact hall v hv
      · refine Or.inr ⟨h1, ?_, w :: W₁, W₂, w2,
          by rw [hdec, List.cons_append], hid, hrdw, ?_⟩
        · intro v hv
          rcases List.mem_cons.mp hv with rfl | hv
          · exact le_of_lt (lt_of_lt_of_le h1 hlt)
          · exact h2 v hv
        · intro v hv
          rcases List.mem_cons.mp hv with rfl | hv
          · exact lt_of_lt_of_le h1 hlt
          · exact hstr v hv

/-- On a nonempty worker list, the clustering scan returns the id of the first
worker at minimal distance from the ticket. -/
lemma nearestWorker_spec (hav : Dist) (workers : List FWorker) (t : FTicket)
    (hne : workers ≠ []) :
    ∃ wid, nearestWorker hav workers t = some wid ∧
      NearestWorkerSpec hav workers t wid := by
  cases workers with
  | nil => exact absurd rfl hne
  | cons w ws =>
    have hstep : nearestWorkerAux hav t (w :: ws) none =
        nearestWorkerAux hav t ws (some (w.id, wdist hav t w)) := rfl
    obtain ⟨rid, rd, heq, hc⟩ := nwAux_acc_some hav t ws w.id (wdist hav t w)
    refine ⟨rid, ?_, ?_⟩
    · unfold nearestWorker
      rw [hstep, heq]
      rfl
    · rcases hc with ⟨hrid, hrd, hall⟩ | ⟨h1, h2, W₁, W₂, w2, hdec, hid, hrdw, hstr⟩
      · refine ⟨[], ws, w, rfl, hrid.symm, ?_, by simp⟩
        intro v hv
        rcases List.mem_cons.mp hv with rfl | hv
        · exact le_refl _
        · exact hall v hv
      · refine ⟨w :: W₁, W₂, w2, by rw [hdec, List.cons_append], hid, ?_, ?_⟩
        · intro v hv
          rw [← hrdw]
          rcases List.mem_cons.mp hv with rfl | hv
          · exact le_of_lt h1
          · exact h2 v hv
        · intro v hv
          rw [← hrdw]
          rcases List.mem_cons.mp hv with rfl | hv
          · exact h1
          · exact hstr v hv

/-- Normal form of the per-worker fleet loop: one tagged pure route per worker in
order whose cluster is nonempty. -/
lemma fleetLoop_eq (hav : Dist) (workers : List FWorker) (tickets : List FTicket) :
    ∀ rest : List FWorker,
      fleetLoop hav workers tickets rest = .ok
        ((rest.filter fun w => !(cluster hav workers tickets w.id).isEmpty).map
          fun w =>
            { optimize_route_pure hav (w.current_lat, w.current_lng)
                ((cluster hav workers tickets w.id).map FTicket.toJob) with
              worker_id := some w.id }) := by
  intro rest
  induction rest with
  | nil => rfl
  | cons w rest ih =>
    have hstep : fleetLoop hav workers tickets (w :: rest) =
        if (cluster hav workers tickets w.id).isEmpty then
          fleetLoop hav workers tickets rest
        else
          (optimize_route hav (w.current_lat, w.current_lng)
            ((cluster hav workers tickets w.id).map FTicket.toJob) >>= fun route =>
          fleetLoop hav workers tickets rest >>= fun routes =>
          .ok ({ route with worker_id := some w.id } :: routes)) := rfl
    by_cases hj : (cluster hav workers tickets w.id).isEmpty = true
    · rw [hstep, if_pos hj, ih, List.filter_cons,
        if_neg (by simp [hj])]
    · have hne2 : (cluster hav workers tickets w.id).map FTicket.toJob ≠ [] := by
        intro hc
        rw [List.map_eq_nil_iff] at hc
        rw [hc] at hj
        exact hj rfl
      have hap : AllPresent ((cluster hav workers tickets w.id).map FTicket.toJob) := by
        intro j hj2
        obtain ⟨t2, _, rfl⟩ := List.mem_map.mp hj2
        exact ⟨rfl, rfl⟩
      rw [hstep, if_neg hj, optimize_route_eq_pure _ _ _ hne2 hap, ok_bind, ih,
        ok_bind, List.filter_cons, if_pos (by simp [hj]), List.map_cons]

lemma join_map_perm_congr {α β : Type} (f g : α → List β) :
    ∀ l : List α, (∀ a ∈ l, (f a).Perm (g a)) →
      ((l.map f).flatten).Perm ((l.map g).flatten) := by
  intro l
  induction l with
  | nil => intro; exact List.Perm.refl []
  | cons a l ih =>
    intro h
    simp only [List.map_cons, List.flatten_cons]
    exact (h a (List.mem_cons_self a l)).append
      (ih fun b hb => h b (List.mem_cons_of_mem a hb))

lemma join_filter_skip {α β : Type} (p : α → Bool) (f : α → List β)
    (hf : ∀ a, p a = false → f a = []) :
    ∀ l : List α, (((l.filter p).map f).flatten) = ((l.map f).flatten) := by
  intro l
  induction l with
  | nil => rfl
  | cons a l ih =>
    rw [List.filter_cons]
    by_cases hp : p a = true
    · rw [if_pos hp]
      simp only [List.map_cons, List.flatten_cons, ih]
    · rw [if_neg hp, List.map_cons, List.flatten_cons, ih,
        hf a (Bool.eq_false_iff.mpr hp), List.nil_append]

/-- The clusters of the workers partition the tickets: flattening the per-worker
clusters, in worker order, is a permutation of the ticket list (given a nonempty
worker list with pairwise distinct ids). -/
lemma join_clusters_perm (hav : Dist) (workers : List FWorker)
    (hne : workers ≠ []) (hnd : (workers.map FWorker.id).Nodup) :
    ∀ tickets : List FTicket,
      ((workers.map fun w => cluster hav workers tickets w.id).flatten).Perm
        tickets := by
  intro tickets
  induction tickets with
  | nil =>
    have hmapnil : workers.map (fun w => cluster hav workers [] w.id) =
        workers.map fun _ => ([] : List FTicket) :=
      List.map_congr_left fun a _ => rfl
    rw [hmapnil]
    simp
  | cons t ts ih =>
    obtain ⟨wid, hnw, W₁, W₂, w, hdec, hwid, _, _⟩ :=
      nearestWorker_spec hav workers t hne
    have hnd2 : (W₁.map FWorker.id ++ w.id :: W₂.map FWorker.id).Nodup := by
      have := hnd
      rw [hdec, List.map_append, List.map_cons] at this
      exact this
    have hids : w.id ∉ W₁.map FWorker.id ∧ w.id ∉ W₂.map FWorker.id := by
      obtain ⟨h1, h2, hdisj⟩ := List.nodup_append.mp hnd2
      refine ⟨fun hc => ?_, (List.nodup_cons.mp h2).1⟩
      exact hdisj hc (List.mem_cons_self _ _)
    have hclw : cluster hav workers (t :: ts) w.id =
        t :: cluster hav workers ts w.id := by
      unfold cluster
      rw [List.filter_cons, if_pos]
      rw [hnw, hwid]
      simp
    have hclv : ∀ v : FWorker, v.id ≠ w.id →
        cluster hav workers (t :: ts) v.id = cluster hav workers ts v.id := by
      intro v hv
      unfold cluster
      rw [List.filter_cons, if_neg]
      rw [hnw]
      simp only [beq_iff_eq, Option.some_inj]
      intro hc
      exact hv (by rw [← hc, ← hwid])
    have hW₁ : ∀ v ∈ W₁, v.id ≠ w.id := by
      intro v hv hc
      exact hids.1 (hc ▸ List.mem_map_of_mem FWorker.id hv)
    have hW₂ : ∀ v ∈ W₂, v.id ≠ w.id := by
      intro v hv hc
      exact hids.2 (hc ▸ List.mem_map_of_mem FWorker.id hv)
    have hsplit : ∀ F : FWorker → List FTicket,
        workers.map F = W₁.map F ++ F w :: W₂.map F := by
      intro F
      rw [hdec, List.map_append, List.map_cons]
    have hmap : workers.map (fun v => cluster hav workers (t :: ts) v.id) =
        W₁.map (fun v => cluster hav workers ts v.id) ++
          (t :: cluster hav workers ts w.id) ::
          W₂.map (fun v => cluster hav workers ts v.id) := by
      rw [hsplit fun v => cluster hav workers (t :: ts) v.id,
        List.map_congr_left fun v hv => hclv v (hW₁ v hv),
        List.map_congr_left fun v hv => hclv v (hW₂ v hv), hclw]
    have hmap2 : workers.map (fun v => cluster hav workers ts v.id) =
        W₁.map (fun v => cluster hav workers ts v.id) ++
          cluster hav workers ts w.id ::
          W₂.map (fun v => cluster hav workers ts v.id) :=
      hsplit fun v => cluster hav workers ts v.id
    rw [hmap, List.flatten_append, List.flatten_cons, List.cons_append]
    refine List.perm_middle.trans (List.Perm.cons t ?_)
    have hjoin : (workers.map fun v => cluster hav workers ts v.id).flatten =
        (W₁.map fun v => cluster hav workers ts v.id).flatten ++
          (cluster hav workers ts w.id ++
            (W₂.map fun v => cluster hav workers ts v.id).flatten) := by
      rw [hmap2, List.flatten_append, List.flatten_cons]
    rw [← hjoin]
    exact ih

/-- The stop payloads of a pure route are a permutation of its job payloads. -/
lemma route_pure_stops_perm (hav : Dist) (start : ℚ × ℚ) (jobs : List Job) :
    ((optimize_route_pure hav start jobs).stops.map stopData).Perm
      (jobs.map jobData) := by
  have hstops : (optimize_route_pure hav start jobs).stops =
      (buildPure hav jobs (visitOrder hav start jobs) start 0 0 0).1 := rfl
  rw [hstops, buildPure_map_stopData]
  refine ((visitOrder_perm hav start jobs).1.map fun i => jobData (jobAt jobs i)).trans ?_
  rw [map_range_jobAt]

lemma map_jobData_toJob (l : List FTicket) :
    (l.map FTicket.toJob).map jobData = l.map ticketData := by
  rw [List.map_map]
  exact List.map_congr_left fun t _ => rfl

/-- Claim C6 (amended): for a nonempty worker list with pairwise distinct ids,
`optimize_fleet_routes` assigns every ticket to the first worker at minimal
distance, returns exactly one route, tagged with the worker id, per worker with at
least one assigned ticket (in worker order, skipping workers with none), and the
stop payloads of all returned routes together are a permutation of the ticket
payloads (every ticket ends up in exactly one returned route). -/
theorem optimize_fleet_routes_clusters (hav : Dist) (workers : List FWorker)
    (tickets : List FTicket) (hne : workers ≠ [])
    (hnd : (workers.map FWorker.id).Nodup) :
    optimize_fleet_routes hav workers tickets =
      .ok (fleet_pure hav workers tickets) ∧
    (fleet_pure hav workers tickets).map OptimizedRoute.worker_id =
      (workers.filter fun w => !(cluster hav workers tickets w.id).isEmpty).map
        (fun w => some w.id) ∧
    (∀ t ∈ tickets, ∃ wid, nearestWorker hav workers t = some wid ∧
      NearestWorkerSpec hav workers t wid) ∧
    (((fleet_pure hav workers tickets).map fun r =>
      r.stops.map stopData).flatten).Perm (tickets.map ticketData) := by
  refine ⟨?_, ?_, ?_, ?_⟩
  · unfold optimize_fleet_routes
    by_cases ht : tickets = []
    · subst ht
      rw [if_pos (by simp)]
      have hfilter : (workers.filter fun w =>
          !(cluster hav workers [] w.id).isEmpty) = [] :=
        List.filter_eq_nil_iff.mpr fun a _ => by simp [cluster]
      unfold fleet_pure
      rw [hfilter]
      rfl
    · rw [if_neg (by simp [List.isEmpty_iff, hne, ht])]
      exact fleetLoop_eq hav workers tickets workers
  · unfold fleet_pure
    rw [List.map_map]
    exact List.map_congr_left fun w _ => rfl
  · intro t _
    exact nearestWorker_spec hav workers t hne
  · unfold fleet_pure
    rw [List.map_map]
    refine (join_map_perm_congr _
      (fun w => (cluster hav workers tickets w.id).map ticketData) _ ?_).trans ?_
    · intro w _
      show ((optimize_route_pure hav (w.current_lat, w.current_lng)
          ((cluster hav workers tickets w.id).map FTicket.toJob)).stops.map
            stopData).Perm
        ((cluster hav workers tickets w.id).map ticketData)
      rw [← map_jobData_toJob]
      exact route_pure_stops_perm hav (w.current_lat, w.current_lng)
        ((cluster hav workers tickets w.id).map FTicket.toJob)
    · rw [join_filter_skip _ _ (fun a ha => by
        have hemp : (cluster hav workers tickets a.id).isEmpty = true := by
          rwa [Bool.not_eq_false'] at ha
        rw [List.isEmpty_iff.mp hemp]
        rfl) workers]
      have hjm : ((workers.map fun w =>
          (cluster hav workers tickets w.id).map ticketData)).flatten =
          ((workers.map fun w =>
            cluster hav workers tickets w.id).flatten).map ticketData := by
        rw [List.map_flatten, List.map_map]
        exact congrArg List.flatten (List.map_congr_left fun w _ => rfl)
      rw [hjm]
      exact (join_clusters_perm hav workers hne hnd tickets).map ticketData

/-- Witness for claim C6 (amended) on concrete inputs with distinct worker ids. -/
theorem optimize_fleet_routes_clusters_witness :
    ([fw1, fw2] ≠ ([] : List FWorker)) ∧
    ([fw1, fw2].map FWorker.id).Nodup ∧
    (fleet_pure havAbs [fw1, fw2] [ft1]).map OptimizedRoute.worker_id =
      ([fw1, fw2].filter fun w =>
        !(cluster havAbs [fw1, fw2] [ft1] w.id).isEmpty).map (fun w => some w.id) :=
  ⟨by simp, by decide,
   (optimize_fleet_routes_clusters havAbs [fw1, fw2] [ft1] (by simp)
     (by decide)).2.1⟩

/-- Counterexample to claim C6 as stated: with two workers sharing the same id
(both at the ticket position, where every distance is 0 under the haversine
formula), the single ticket ends up in two returned routes, and two routes are
returned for one worker id, because the cluster dictionary is keyed by worker id. -/
theorem optimize_fleet_routes_duplicate_id_counterexample :
    optimize_fleet_routes hav00 [fw1, fw1b] [ftZ] = .ok [routeDup, routeDup] ∧
    routeDup.worker_id = some 1 ∧
    routeDup.stops.map RouteStop.ticket_id = [some 7] := by
  have hcl1 : cluster hav00 [fw1, fw1b] [ftZ] (1 : Int) = [ftZ] := by decide
  have hfilter : ([fw1, fw1b].filter fun w =>
      !(cluster hav00 [fw1, fw1b] [ftZ] w.id).isEmpty) = [fw1, fw1b] := by decide
  have hf1 : ({ optimize_route_pure hav00 (fw1.current_lat, fw1.current_lng)
      ((cluster hav00 [fw1, fw1b] [ftZ] fw1.id).map FTicket.toJob) with
      worker_id := some fw1.id } : OptimizedRoute) = routeDup := by
    rw [show cluster hav00 [fw1, fw1b] [ftZ] fw1.id = [ftZ] from hcl1]
    rfl
  have hf2 : ({ optimize_route_pure hav00 (fw1b.current_lat, fw1b.current_lng)
      ((cluster hav00 [fw1, fw1b] [ftZ] fw1b.id).map FTicket.toJob) with
      worker_id := some fw1b.id } : OptimizedRoute) = routeDup := by
    rw [show cluster hav00 [fw1, fw1b] [ftZ] fw1b.id = [ftZ] from hcl1]
    rfl
  refine ⟨?_, rfl, ?_⟩
  · unfold optimize_fleet_routes
    rw [if_neg (by decide), fleetLoop_eq hav00 [fw1, fw1b] [ftZ] [fw1, fw1b],
      hfilter]
    show Except.ok
      [({ optimize_route_pure hav00 (fw1.current_lat, fw1.current_lng)
          ((cluster hav00 [fw1, fw1b] [ftZ] fw1.id).map FTicket.toJob) with
          worker_id := some fw1.id } : OptimizedRoute),
       ({ optimize_route_pure hav00 (fw1b.current_lat, fw1b.current_lng)
          ((cluster hav00 [fw1, fw1b] [ftZ] fw1b.id).map FTicket.toJob) with
          worker_id := some fw1b.id } : OptimizedRoute)] =
      Except.ok [routeDup, routeDup]
    rw [hf1, hf2]
  · have hvo : visitOrder hav00 (0, 0) [FTicket.toJob ftZ] = [0] := by decide
    have hstops : routeDup.stops.map RouteStop.ticket_id =
        (buildPure hav00 [FTicket.toJob ftZ]
          (visitOrder hav00 (0, 0) [FTicket.toJob ftZ]) (0, 0) 0 0 0).1.map
          RouteStop.ticket_id := rfl
    rw [hstops, hvo]
    rfl

end OptimizationService

/-- Claim C8: empty inputs produce empty results, never an error: a worker set
with no scorable candidate ranks to the empty list, an empty stop list yields an
empty route with zero totals, and an empty worker or ticket list yields an empty
fleet result. -/
theorem empty_inputs_give_empty_results (hav : Dist)
    (t : AssignmentService.Ticket) (ws : List AssignmentService.Worker)
    (h : ∀ w ∈ ws, w.availability_status = "available" → w.active = true →
      AssignmentService.score_worker hav t w = none) :
    AssignmentService.rank_workers hav t ws = [] ∧
    (∀ start, OptimizationService.optimize_route hav start [] =
      .ok { stops := [], total_distance_km := 0.0, total_time_minutes := 0.0,
            worker_id := none }) ∧
    (∀ tickets, OptimizationService.optimize_fleet_routes hav [] tickets =
      .ok []) ∧
    (∀ workers, OptimizationService.optimize_fleet_routes hav workers [] =
      .ok []) := by
  refine ⟨?_, fun start => rfl, fun tickets => rfl, fun workers => ?_⟩
  · unfold AssignmentService.rank_workers
    have hscored : AssignmentService.scored_workers hav t ws = [] := by
      unfold AssignmentService.scored_workers
      rw [List.filterMap_eq_nil_iff]
      intro w hw
      have hmem := List.mem_filter.mp hw
      have hcond := hmem.2
      rw [Bool.and_eq_true, beq_iff_eq] at hcond
      exact h w hmem.1 hcond.1 hcond.2
    rw [hscored]
    simp
  · unfold OptimizationService.optimize_fleet_routes
    simp

/-- Witness for claim C8 on concrete inputs. -/
theorem empty_inputs_give_empty_results_witness :
    AssignmentService.rank_workers AssignmentService.hav0 AssignmentService.t0
      [] = [] ∧
    OptimizationService.optimize_route AssignmentService.hav0 (0, 0) [] =
      .ok { stops := [], total_distance_km := 0.0, total_time_minutes := 0.0,
            worker_id := none } ∧
    OptimizationService.optimize_fleet_routes AssignmentService.hav0 []
      [OptimizationService.ft1] = .ok [] ∧
    OptimizationService.optimize_fleet_routes AssignmentService.hav0
      [OptimizationService.fw1] [] = .ok [] := by
  obtain ⟨h1, h2, h3, h4⟩ := empty_inputs_give_empty_results AssignmentService.hav0
    AssignmentService.t0 [] (by simp)
  exact ⟨h1, h2 (0, 0), h3 [OptimizationService.ft1], h4 [OptimizationService.fw1]⟩

end Forge
